import Mathlib

/-!
Verification development for the radiocarbon calibration core
(`src/calibration-math.js` of the c14-calibration-calculator repository).

JavaScript numbers are modelled as exact rationals (`ℚ`) for all curve and
bookkeeping arithmetic, and as real numbers (`ℝ`) for the Gaussian likelihood
(`Math.exp`, `Math.sqrt`, `Math.PI`), so the transcendental pipeline is
necessarily noncomputable while every curve-level function stays executable.
Fallible code returns `Except`.  Each definition mirrors one function of the
source file; deviations forced by the modelling (e.g. JavaScript `Infinity`)
are noted in the corresponding doc comment.
-/

namespace C14

/-- A calibration-curve data point `{cal_BP, c14_BP, error}` as parsed by the
data loader (`parseCalibrationFile`). -/
structure CurvePoint where
  cal_BP : ℚ
  c14_BP : ℚ
  error : ℚ
deriving DecidableEq

/-- The `{c14_BP, error}` pair returned by `interpolate`/`getCurveValueAt`
(the JavaScript objects carry exactly these two observable fields at every
use site: `createUniformDistribution` destructures them). -/
structure CVal where
  c14_BP : ℚ
  error : ℚ
deriving DecidableEq

/-- The observable `{c14_BP, error}` part of a curve point. -/
def CurvePoint.val (p : CurvePoint) : CVal :=
  ⟨p.c14_BP, p.error⟩

/-- Default used to model JavaScript out-of-bounds array indexing; all
verified paths index within bounds. -/
def defaultPoint : CurvePoint :=
  ⟨0, 0, 0⟩

/-- `interpolate(targetCalBP, lowerPoint, upperPoint)`: linear interpolation
between two data points; if the two points share `cal_BP` the lower point's
values are returned unchanged. -/
def interpolate (targetCalBP : ℚ) (lowerPoint upperPoint : CurvePoint) : CVal :=
  if lowerPoint.cal_BP = upperPoint.cal_BP then
    ⟨lowerPoint.c14_BP, lowerPoint.error⟩
  else
    let factor := (targetCalBP - lowerPoint.cal_BP) / (upperPoint.cal_BP - lowerPoint.cal_BP)
    ⟨lowerPoint.c14_BP + factor * (upperPoint.c14_BP - lowerPoint.c14_BP),
     lowerPoint.error + factor * (upperPoint.error - lowerPoint.error)⟩

/-- The `while (low <= high)` binary-search loop of `getCurveValueAt`.
`Sum.inl p` models the early `return curveData[mid]` on an exact match;
`Sum.inr (low, high)` returns the final loop variables otherwise
(`mid = Math.floor((low + high) / 2)`). -/
def gcvaLoop (curveData : List CurvePoint) (calBP : ℚ) (low high : ℤ) :
    Sum CurvePoint (ℤ × ℤ) :=
  if low ≤ high then
    let mid : ℤ := (low + high) / 2
    let p := curveData.getD mid.toNat defaultPoint
    if p.cal_BP < calBP then gcvaLoop curveData calBP (mid + 1) high
    else if calBP < p.cal_BP then gcvaLoop curveData calBP low (mid - 1)
    else Sum.inl p
  else Sum.inr (low, high)
termination_by (high + 1 - low).toNat
decreasing_by
  · omega
  · omega

/-- `getCurveValueAt(calBP, curveData)`: clamps to the first/last point when
`calBP` is outside the curve's range, otherwise binary-searches and either
returns an exact match or interpolates between `curveData[high]` and
`curveData[low]`. -/
def getCurveValueAt (calBP : ℚ) (curveData : List CurvePoint) : CVal :=
  if calBP ≤ (curveData.getD 0 defaultPoint).cal_BP then
    (curveData.getD 0 defaultPoint).val
  else if (curveData.getD (curveData.length - 1) defaultPoint).cal_BP ≤ calBP then
    (curveData.getD (curveData.length - 1) defaultPoint).val
  else
    match gcvaLoop curveData calBP 0 ((curveData.length : ℤ) - 1) with
    | Sum.inl p => p.val
    | Sum.inr lh =>
        interpolate calBP (curveData.getD lh.2.toNat defaultPoint)
          (curveData.getD lh.1.toNat defaultPoint)

/-- A probability-distribution point `{cal_BP, probability}`; the probability
type is a parameter so the algorithmic HPD layer can be stated over `ℚ`
(executable) while the pipeline instantiates it at `ℝ`. -/
structure PPoint (α : Type) where
  cal_BP : ℚ
  probability : α
deriving DecidableEq

/-- An HPD interval `{min, max}` of calendar years. -/
structure Interval where
  min : ℚ
  max : ℚ
deriving DecidableEq

instance {α : Type} [LinearOrder α] :
    DecidableRel (fun (a b : PPoint α) => b.probability ≤ a.probability) :=
  fun a b => inferInstanceAs (Decidable (b.probability ≤ a.probability))

instance {α : Type} [LinearOrder α] :
    DecidableRel (fun (a b : PPoint α) => a.cal_BP ≤ b.cal_BP) :=
  fun a b => inferInstanceAs (Decidable (a.cal_BP ≤ b.cal_BP))

instance {α : Type} [LinearOrder α] :
    IsTotal (PPoint α) (fun a b => b.probability ≤ a.probability) :=
  ⟨fun a b => le_total b.probability a.probability⟩

instance {α : Type} [LinearOrder α] :
    IsTrans (PPoint α) (fun a b => b.probability ≤ a.probability) :=
  ⟨fun _ _ _ h1 h2 => le_trans h2 h1⟩

instance {α : Type} [LinearOrder α] :
    IsTotal (PPoint α) (fun a b => a.cal_BP ≤ b.cal_BP) :=
  ⟨fun a b => le_total a.cal_BP b.cal_BP⟩

instance {α : Type} [LinearOrder α] :
    IsTrans (PPoint α) (fun a b => a.cal_BP ≤ b.cal_BP) :=
  ⟨fun _ _ _ h1 h2 => le_trans h1 h2⟩

/-- `[...probDist].sort((a, b) => b.probability - a.probability)`: a stable
sort by descending probability. -/
def sortByProbDesc {α : Type} [LinearOrder α] (l : List (PPoint α)) : List (PPoint α) :=
  List.insertionSort (fun a b => b.probability ≤ a.probability) l

/-- `includedPoints.sort((a, b) => a.cal_BP - b.cal_BP)`: a stable sort by
ascending calendar year. -/
def sortByCal {α : Type} [LinearOrder α] (l : List (PPoint α)) : List (PPoint α) :=
  List.insertionSort (fun a b => a.cal_BP ≤ b.cal_BP) l

/-- The accumulation loop of `findHPD`: push each point, add its probability
to the running total, and break as soon as the total reaches `targetProb`. -/
def collectPoints {α : Type} [LinearOrderedField α] (targetProb : α) :
    α → List (PPoint α) → List (PPoint α)
  | _, [] => []
  | cum, p :: rest =>
      if targetProb ≤ cum + p.probability then [p]
      else p :: collectPoints targetProb (cum + p.probability) rest

/-- The interval-merging loop of `findHPD` over the cal-sorted included
points: a gap of more than one year closes the current `{min, max}` interval
and starts a new one. -/
def buildIntervals {α : Type} [LinearOrderedField α] (start prev : PPoint α) :
    List (PPoint α) → List Interval
  | [] => [⟨start.cal_BP, prev.cal_BP⟩]
  | curr :: rest =>
      if 1 < curr.cal_BP - prev.cal_BP then
        ⟨start.cal_BP, prev.cal_BP⟩ :: buildIntervals curr curr rest
      else
        buildIntervals start curr rest

/-- The `includedPoints` list of `findHPD`: the greedy prefix of the
descending-probability sort whose cumulative probability first reaches
`confidence × totalProbability` (the total is computed from the unsorted
input; an out-of-range confidence falls back to `0.95`). -/
def includedPoints {α : Type} [LinearOrderedField α]
    (probDist : List (PPoint α)) (conf : α) : List (PPoint α) :=
  let conf' := if conf ≤ 0 ∨ 1 < conf then (19 : α) / 20 else conf
  let totalProb := (probDist.map (·.probability)).sum
  collectPoints (totalProb * conf') 0 (sortByProbDesc probDist)

/-- `findHPD(probDist, conf)`: empty input returns `[]`; otherwise the greedy
included points are re-sorted by calendar year and merged into intervals.
(The inner `[] => []` branch is the source's dead early-exit for an empty
included list.) -/
def findHPD {α : Type} [LinearOrderedField α]
    (probDist : List (PPoint α)) (conf : α) : List Interval :=
  if probDist.isEmpty then []
  else
    match sortByCal (includedPoints probDist conf) with
    | [] => []
    | p :: rest => buildIntervals p p rest

/-- The `console.warn` messages emitted by one `findHPD` call (the source
interpolates the offending confidence value into the text; the static part is
modelled). -/
def findHPDWarnings {α : Type} [LinearOrderedField α]
    (probDist : List (PPoint α)) (conf : α) : List String :=
  if probDist.isEmpty then ["Invalid probability distribution provided to findHPD"]
  else if conf ≤ 0 ∨ 1 < conf then
    ["Invalid confidence level provided to findHPD. Using 0.95 as default."]
  else []

/-- `calculateProbability`: Gaussian density with measurement and curve
errors combined in quadrature. -/
noncomputable def calculateProbability (c14Age c14Error curveC14BP curveError : ℝ) : ℝ :=
  let totalError := Real.sqrt (c14Error ^ 2 + curveError ^ 2)
  let deviation := c14Age - curveC14BP
  Real.exp (-(1 / 2) * (deviation / totalError) ^ 2) / (totalError * Real.sqrt (2 * Real.pi))

/-- `createUniformDistribution(curveData, startYear, endYear)`: the
`for (calBP = startYear; calBP <= endYear; calBP++)` loop runs once for every
integer offset `i` with `startYear + i ≤ endYear`, i.e.
`⌊endYear − startYear⌋ + 1` times when `startYear ≤ endYear` and never
otherwise. -/
def createUniformDistribution (curveData : List CurvePoint) (startYear endYear : ℚ) :
    List CurvePoint :=
  let n : ℕ := if startYear ≤ endYear then (endYear - startYear).floor.toNat + 1 else 0
  (List.range n).map (fun i =>
    let calBP := startYear + i
    let v := getCurveValueAt calBP curveData
    ⟨calBP, v.c14_BP, v.error⟩)

/-- `[...curveData].sort((a, b) => a.c14_BP - b.c14_BP)` of
`findCalendarRangeByC14BP`. -/
def sortByC14 (l : List CurvePoint) : List CurvePoint :=
  List.insertionSort (fun a b => a.c14_BP ≤ b.c14_BP) l

instance : DecidableRel (fun (a b : CurvePoint) => a.c14_BP ≤ b.c14_BP) :=
  fun a b => inferInstanceAs (Decidable (a.c14_BP ≤ b.c14_BP))

instance : IsTotal CurvePoint (fun a b => a.c14_BP ≤ b.c14_BP) :=
  ⟨fun a b => le_total a.c14_BP b.c14_BP⟩

instance : IsTrans CurvePoint (fun a b => a.c14_BP ≤ b.c14_BP) :=
  ⟨fun _ _ _ h1 h2 => le_trans h1 h2⟩

/-- First binary-search loop of `findCalendarRangeByC14BP` (tracks
`minIndex`, updated on every leftward move). -/
def minIdxLoop (l : List CurvePoint) (minC14 : ℚ) (low high minIndex : ℤ) : ℤ :=
  if low ≤ high then
    let mid : ℤ := (low + high) / 2
    if (l.getD mid.toNat defaultPoint).c14_BP < minC14 then
      minIdxLoop l minC14 (mid + 1) high minIndex
    else
      minIdxLoop l minC14 low (mid - 1) mid
  else minIndex
termination_by (high + 1 - low).toNat
decreasing_by
  · omega
  · omega

/-- Second binary-search loop of `findCalendarRangeByC14BP` (tracks
`maxIndex`, updated on every rightward move). -/
def maxIdxLoop (l : List CurvePoint) (maxC14 : ℚ) (low high maxIndex : ℤ) : ℤ :=
  if low ≤ high then
    let mid : ℤ := (low + high) / 2
    if (l.getD mid.toNat defaultPoint).c14_BP ≤ maxC14 then
      maxIdxLoop l maxC14 (mid + 1) high mid
    else
      maxIdxLoop l maxC14 low (mid - 1) maxIndex
  else maxIndex
termination_by (high + 1 - low).toNat
decreasing_by
  · omega
  · omega

/-- `Math.min(...)` over a spread list; the source only ever reaches the
empty case with result `Infinity`, which is modelled separately (see
`findCalendarRangeByC14BP`), so the empty default here is never observable. -/
def jsMin (l : List ℚ) : ℚ :=
  match l with
  | [] => 0
  | x :: r => r.foldl min x

/-- `Math.max(...)` over a spread list (empty default as in `jsMin`). -/
def jsMax (l : List ℚ) : ℚ :=
  match l with
  | [] => 0
  | x :: r => r.foldl max x

/-- `findCalendarRangeByC14BP(curveData, c14Age, uncertainty)`: re-sort by
`c14_BP`, binary-search the ±5σ band, slice, and take min/max of the calendar
years.  When the slice is empty the source returns
`{min: Infinity, max: -Infinity}`, which after padding and clamping makes the
sampling loop of `calibrateDate` run zero times; this is modelled as `none`
(and `calibrateDate` maps `none` to an empty sampling range), which is
observationally identical. -/
def findCalendarRangeByC14BP (curveData : List CurvePoint) (c14Age uncertainty : ℚ) :
    Option (ℚ × ℚ) :=
  let c14SortedCurve := sortByC14 curveData
  let searchRange := 5 * uncertainty
  let minC14 := c14Age - searchRange
  let maxC14 := c14Age + searchRange
  let len : ℤ := c14SortedCurve.length
  let minIndex := minIdxLoop c14SortedCurve minC14 0 (len - 1) 0
  let maxIndex := maxIdxLoop c14SortedCurve maxC14 0 (len - 1) (len - 1)
  let calYears :=
    ((c14SortedCurve.drop minIndex.toNat).take (maxIndex + 1 - minIndex).toNat).map (·.cal_BP)
  match calYears with
  | [] => none
  | _ :: _ => some (jsMin calYears, jsMax calYears)

/-- `Object.values(CURVE_TYPES)` of the data loader. -/
def knownCurveTypes : List String :=
  ["IntCal20", "SHCal20", "Marine20"]

/-- The curve-type fallback of `calibrateDate`: unknown types are replaced by
IntCal20 (with a warning, see `calibrateDateWarnings`). -/
def resolveCurveType (curveType : String) : String :=
  if curveType ∈ knownCurveTypes then curveType else "IntCal20"

/-- The `switch (search_mode)` of `calibrateDate` followed by the final clamp
to the curve bounds; `none` propagates the empty-slice case of
`findCalendarRangeByC14BP` (an empty sampling range). -/
def selectRange (curveData : List CurvePoint) (correctedAge uncertainty : ℚ)
    (searchMode : String) : Option (ℚ × ℚ) :=
  let policy : Option (ℚ × ℚ) :=
    if searchMode = "c14_bp" then
      (findCalendarRangeByC14BP curveData correctedAge uncertainty).map
        (fun r => (max 0 (r.1 - 500), r.2 + 500))
    else if searchMode = "full_curve" then
      some ((curveData.getD 0 defaultPoint).cal_BP,
            (curveData.getD (curveData.length - 1) defaultPoint).cal_BP)
    else
      some (0, 12000)
  policy.map (fun r => (max r.1 (curveData.getD 0 defaultPoint).cal_BP,
                        min r.2 (curveData.getD (curveData.length - 1) defaultPoint).cal_BP))

/-- The echoed `input` record of a calibration result (`curve` holds the
post-fallback curve type, as in the source, where the parameter is
reassigned before being echoed). -/
structure CalibrationInput where
  radiocarbon_age : ℚ
  uncertainty : ℚ
  reservoir_correction : ℚ
  curve : String
  search_mode : String
deriving DecidableEq

/-- The `calibrateDate` result record (`curveMetadata`, a constant lookup
owned by the data loader, is omitted; `distribution` keeps `{x, y}` pairs as
probability points). -/
structure CalibrationResult where
  input : CalibrationInput
  calibrated_years_BP : ℚ
  calendar_year : ℚ
  hpd68_ranges : List Interval
  hpd95_ranges : List Interval
  range_1sigma : Interval
  range_2sigma : Interval
  distribution : List (PPoint ℝ)

/-- The curve-set acquisition step of `calibrateDate`: use the cached
`getCalibrationData()` result when present, otherwise the (already awaited)
outcome of `loadCalibrationData()`, wrapping a load failure with context. -/
def loadCurves (getCalibrationData : Option (String → List CurvePoint))
    (loadCalibrationData : Except String (String → List CurvePoint)) :
    Except String (String → List CurvePoint) :=
  match getCalibrationData with
  | some c => Except.ok c
  | none =>
      match loadCalibrationData with
      | Except.ok c => Except.ok c
      | Except.error e => Except.error ("Failed to load calibration data: " ++ e)

/-- The computational heart of `calibrateDate` after validation and data
loading: sample the selected range at 1-year resolution, evaluate the
Gaussian likelihood, normalize, and extract the mode, both HPD interval
sets, and the cal-sorted distribution.  `none` models the JavaScript
`undefined` mode point of an empty distribution (whose field access throws
at result assembly). -/
noncomputable def calibrationCore (curveData : List CurvePoint)
    (corrected_age uncertainty : ℚ) (searchMode : String) :
    Option (PPoint ℝ × List Interval × List Interval × List (PPoint ℝ)) :=
  let uniformCurve :=
    match selectRange curveData corrected_age uncertainty searchMode with
    | none => []
    | some r => createUniformDistribution curveData r.1 r.2
  let probabilities : List (PPoint ℝ) := uniformCurve.map (fun point =>
    ⟨point.cal_BP,
     calculateProbability (corrected_age : ℝ) (uncertainty : ℝ)
       (point.c14_BP : ℝ) (point.error : ℝ)⟩)
  let totalProbability := (probabilities.map (·.probability)).sum
  let normalizedProbabilities : List (PPoint ℝ) :=
    probabilities.map (fun p => ⟨p.cal_BP, p.probability / totalProbability⟩)
  (sortByProbDesc normalizedProbabilities).head?.map (fun modePoint =>
    (modePoint, findHPD normalizedProbabilities ((682 : ℝ) / 1000),
     findHPD normalizedProbabilities ((954 : ℝ) / 1000),
     sortByCal normalizedProbabilities))

/-- The normalized probability list built by `calibrationCore` once the
selected range `[mn, mx]` is known (named so the pipeline can be reasoned
about one stage at a time). -/
noncomputable def normalizedList (curveData : List CurvePoint)
    (corrected_age uncertainty : ℚ) (mn mx : ℚ) : List (PPoint ℝ) :=
  let uniformCurve := createUniformDistribution curveData mn mx
  let probabilities : List (PPoint ℝ) := uniformCurve.map (fun point =>
    ⟨point.cal_BP,
     calculateProbability (corrected_age : ℝ) (uncertainty : ℝ)
       (point.c14_BP : ℝ) (point.error : ℝ)⟩)
  let totalProbability := (probabilities.map (·.probability)).sum
  probabilities.map (fun p => ⟨p.cal_BP, p.probability / totalProbability⟩)

/-- Whether the clamped evaluation range samples no calendar year at all (the
condition under which the distribution is empty and result assembly throws). -/
def emptyEvalRange (curveData : List CurvePoint) (corrected_age uncertainty : ℚ)
    (searchMode : String) : Bool :=
  match selectRange curveData corrected_age uncertainty searchMode with
  | none => true
  | some r => decide (r.2 < r.1)

/-- `calibrateDate(c14_age, uncertainty, reservoir_correction, curveType,
search_mode)`.  The module-level curve cache and the asynchronous loader are
passed explicitly: `getCalibrationData` is the cached `CurveSet | null` and
`loadCalibrationData` the loader's outcome.  A curve set maps identifiers to
point lists; a missing or non-array entry is modelled as the empty list (the
source treats all three identically).  The `"TypeError"` error models the
JavaScript `TypeError` thrown at result assembly when the distribution is
empty and `modePoint` is `undefined`. -/
noncomputable def calibrateDate (c14_age uncertainty reservoir_correction : ℚ)
    (curveType searchMode : String)
    (getCalibrationData : Option (String → List CurvePoint))
    (loadCalibrationData : Except String (String → List CurvePoint)) :
    Except String CalibrationResult :=
  if c14_age < 0 ∨ 100000 < c14_age then
    Except.error "Invalid radiocarbon age. Must be a positive number."
  else if uncertainty ≤ 0 then
    Except.error "Invalid uncertainty. Must be a positive number."
  else
    let curveType' := resolveCurveType curveType
    match loadCurves getCalibrationData loadCalibrationData with
    | Except.error e => Except.error e
    | Except.ok calibrationCurves =>
        let curveData := calibrationCurves curveType'
        if curveData.isEmpty then
          Except.error "Calibration curve data is missing or invalid."
        else
          let corrected_age := c14_age - reservoir_correction
          match calibrationCore curveData corrected_age uncertainty searchMode with
          | none => Except.error "TypeError"
          | some out =>
              Except.ok
                { input := ⟨c14_age, uncertainty, reservoir_correction, curveType', searchMode⟩,
                  calibrated_years_BP := out.1.cal_BP,
                  calendar_year := 1950 - out.1.cal_BP,
                  hpd68_ranges := out.2.1,
                  hpd95_ranges := out.2.2.1,
                  range_1sigma := ⟨jsMin (out.2.1.map (·.min)), jsMax (out.2.1.map (·.max))⟩,
                  range_2sigma :=
                    ⟨jsMin (out.2.2.1.map (·.min)), jsMax (out.2.2.1.map (·.max))⟩,
                  distribution := out.2.2.2 }

/-- The `console.warn` messages emitted by one `calibrateDate` call, in
order: input-validation failures throw before any warning; an unknown curve
type warns and falls back to IntCal20; the two nested `findHPD` calls run
before result assembly, so on the empty-distribution path each emits its
invalid-distribution warning before the `TypeError` is thrown (the
confidences 0.682 and 0.954 are always in range, so `findHPD`'s
out-of-range-confidence warning is unreachable from here); the search-mode
switch has a silent default. -/
noncomputable def calibrateDateWarnings (c14_age uncertainty reservoir_correction : ℚ)
    (curveType searchMode : String)
    (getCalibrationData : Option (String → List CurvePoint))
    (loadCalibrationData : Except String (String → List CurvePoint)) : List String :=
  if c14_age < 0 ∨ 100000 < c14_age then []
  else if uncertainty ≤ 0 then []
  else
    let curveWarn : List String :=
      if curveType ∈ knownCurveTypes then []
      else ["Invalid curve type. Using default IntCal20."]
    match loadCurves getCalibrationData loadCalibrationData with
    | Except.error _ => curveWarn
    | Except.ok calibrationCurves =>
        let curveData := calibrationCurves (resolveCurveType curveType)
        if curveData.isEmpty then curveWarn
        else
          let corrected_age := c14_age - reservoir_correction
          let normalizedProbabilities : List (PPoint ℝ) :=
            match selectRange curveData corrected_age uncertainty searchMode with
            | none => []
            | some r => normalizedList curveData corrected_age uncertainty r.1 r.2
          curveWarn ++ findHPDWarnings normalizedProbabilities ((682 : ℝ) / 1000) ++
            findHPDWarnings normalizedProbabilities ((954 : ℝ) / 1000)

/-- A concrete distribution (total probability 1) witnessing that a returned
HPD interval can cover an input point of smaller probability than an excluded
point: the low point at `100.5` sits between the two included points `100`
and `101`. -/
def dC1 : List (PPoint ℚ) :=
  [⟨100, 2/5⟩, ⟨201/2, 1/20⟩, ⟨101, 7/20⟩, ⟨103, 1/5⟩]

/-- Total probability of a distribution (the source's
`probDist.reduce((sum, p) => sum + p.probability, 0)`). -/
def sumProb {α : Type} [LinearOrderedField α] (l : List (PPoint α)) : α :=
  (l.map (·.probability)).sum

/-- The synthetic five-point distribution `[0.1, 0.2, 0.4, 0.2, 0.1]` at
calendar years `100..104` used by the specification's unit scenario. -/
def d5 : List (PPoint ℚ) :=
  [⟨100, 1/10⟩, ⟨101, 1/5⟩, ⟨102, 2/5⟩, ⟨103, 1/5⟩, ⟨104, 1/10⟩]

/-- A small three-point strictly ascending calibration curve used by
witnesses. -/
def curve3 : List CurvePoint :=
  [⟨0, 100, 10⟩, ⟨10, 200, 20⟩, ⟨20, 300, 30⟩]

/-- A curve set holding `curve3` as IntCal20 (and nothing else), used by
witnesses. -/
def curveSet3 : String → List CurvePoint :=
  fun s => if s = "IntCal20" then curve3 else []

/-- A curve set whose only data is a single IntCal20 point far outside the
default `[0, 12000]` evaluation window, so the clamped fixed range is
empty. -/
def curveSetX : String → List CurvePoint :=
  fun s => if s = "IntCal20" then [⟨20000, 100, 10⟩] else []

/-- Whether a curve point's `c14_BP` lies in the ±5σ band searched by
`findCalendarRangeByC14BP`. -/
def inBand (c14Age uncertainty : ℚ) (p : CurvePoint) : Bool :=
  decide (c14Age - 5 * uncertainty ≤ p.c14_BP ∧ p.c14_BP ≤ c14Age + 5 * uncertainty)

/-- Specification-side description of the curve points whose `c14_BP` lies in
the ±5σ band searched by `findCalendarRangeByC14BP`. -/
def bandPoints (curveData : List CurvePoint) (c14Age uncertainty : ℚ) : List CurvePoint :=
  curveData.filter (inBand c14Age uncertainty)

/-- The width contribution of one consecutive pair in a cal-sorted point
list: gaps of more than one year separate intervals and contribute nothing. -/
def gapW (a b : ℚ) : ℚ :=
  if b - a ≤ 1 then b - a else 0

/-- Total HPD width of a cal-sorted list of calendar years: the sum of the
small-gap increments, which `totalWidth_buildIntervals` shows equals the
summed widths of the merged intervals. -/
def widthW : List ℚ → ℚ
  | [] => 0
  | [_] => 0
  | a :: b :: r => gapW a b + widthW (b :: r)

/-- Summed width of a list of intervals. -/
def totalWidth (l : List Interval) : ℚ :=
  (l.map (fun I => I.max - I.min)).sum

/-- Ascending sort of rational numbers (used to reason about the multiset of
calendar years underlying an interval set). -/
def sortQ (l : List ℚ) : List ℚ :=
  List.insertionSort (· ≤ ·) l

/-- Everything in a `CalibrationResult` except the echoed input record; two
calls are "equivalent modulo the echoed input fields" when their cores
agree. -/
def resultCore (r : CalibrationResult) :
    ℚ × ℚ × List Interval × List Interval × Interval × Interval × List (PPoint ℝ) :=
  (r.calibrated_years_BP, r.calendar_year, r.hpd68_ranges, r.hpd95_ranges,
   r.range_1sigma, r.range_2sigma, r.distribution)

/-- C8: `interpolate` returns the lower point's `c14_BP` and `error`
unchanged whenever the two points share a `cal_BP`; otherwise both values are
linearly interpolated with factor
`(target − lower.cal_BP) / (upper.cal_BP − lower.cal_BP)`; at a target equal
to either endpoint's `cal_BP` it returns that endpoint's values exactly, and
at the midpoint of points `(200,10)` at calBP 100 and `(300,20)` at calBP 200
it yields `(250, 15)`. -/
theorem interpolate_spec (t : ℚ) (l u ld ud : CurvePoint)
    (hne : l.cal_BP ≠ u.cal_BP) (heq : ld.cal_BP = ud.cal_BP) :
    interpolate t ld ud = ⟨ld.c14_BP, ld.error⟩ ∧
    interpolate t l u =
      ⟨l.c14_BP + (t - l.cal_BP) / (u.cal_BP - l.cal_BP) * (u.c14_BP - l.c14_BP),
       l.error + (t - l.cal_BP) / (u.cal_BP - l.cal_BP) * (u.error - l.error)⟩ ∧
    interpolate l.cal_BP l u = ⟨l.c14_BP, l.error⟩ ∧
    interpolate u.cal_BP l u = ⟨u.c14_BP, u.error⟩ ∧
    interpolate 150 ⟨100, 200, 10⟩ ⟨200, 300, 20⟩ = ⟨250, 15⟩ := by
  have hsub : u.cal_BP - l.cal_BP ≠ 0 := sub_ne_zero.mpr (Ne.symm hne)
  refine ⟨?_, ?_, ?_, ?_, ?_⟩
  · simp [interpolate, heq]
  · simp [interpolate, hne]
  · simp [interpolate, hne, div_mul_eq_mul_div]
  · simp only [interpolate, if_neg hne]
    rw [div_self hsub]
    simp only [CVal.mk.injEq]
    exact ⟨by ring, by ring⟩
  · norm_num [interpolate]

/-- Witness for `interpolate_spec` at concrete points. -/
theorem interpolate_spec_witness :
    ((⟨0, 1, 2⟩ : CurvePoint).cal_BP ≠ (⟨1, 3, 4⟩ : CurvePoint).cal_BP) ∧
    ((⟨5, 6, 7⟩ : CurvePoint).cal_BP = (⟨5, 8, 9⟩ : CurvePoint).cal_BP) ∧
    (interpolate 2 ⟨5, 6, 7⟩ ⟨5, 8, 9⟩ = ⟨6, 7⟩ ∧
     interpolate 2 ⟨0, 1, 2⟩ ⟨1, 3, 4⟩ =
       ⟨1 + (2 - 0) / (1 - 0) * (3 - 1), 2 + (2 - 0) / (1 - 0) * (4 - 2)⟩ ∧
     interpolate (0 : ℚ) ⟨0, 1, 2⟩ ⟨1, 3, 4⟩ = ⟨1, 2⟩ ∧
     interpolate (1 : ℚ) ⟨0, 1, 2⟩ ⟨1, 3, 4⟩ = ⟨3, 4⟩ ∧
     interpolate 150 ⟨100, 200, 10⟩ ⟨200, 300, 20⟩ = ⟨250, 15⟩) :=
  ⟨by norm_num, by norm_num, interpolate_spec 2 ⟨0, 1, 2⟩ ⟨1, 3, 4⟩ ⟨5, 6, 7⟩ ⟨5, 8, 9⟩
    (by norm_num) (by norm_num)⟩

/-- C9: `findHPD` returns `[]` on the empty distribution, and for a
confidence outside `(0, 1]` it proceeds with `0.95` in its place (returning
exactly what the call with confidence `0.95` returns) while emitting the
invalid-confidence warning. -/
theorem findHPD_invalid_inputs {α : Type} [LinearOrderedField α]
    (d : List (PPoint α)) (c : α) (hd : d ≠ []) (hc : c ≤ 0 ∨ 1 < c) :
    findHPD ([] : List (PPoint α)) c = [] ∧
    findHPD d c = findHPD d ((19 : α) / 20) ∧
    findHPDWarnings d c =
      ["Invalid confidence level provided to findHPD. Using 0.95 as default."] := by
  have h95 : ¬((19 : α) / 20 ≤ 0 ∨ 1 < (19 : α) / 20) := by
    push_neg
    constructor <;> norm_num
  refine ⟨by simp [findHPD], ?_, ?_⟩
  · unfold findHPD includedPoints
    rw [if_pos hc, if_neg h95]
  · unfold findHPDWarnings
    rw [if_neg (by simpa using hd), if_pos hc]

/-- Witness for `findHPD_invalid_inputs` at a concrete distribution and an
out-of-range confidence. -/
theorem findHPD_invalid_inputs_witness :
    ([(⟨0, 1⟩ : PPoint ℚ)] ≠ []) ∧ ((2 : ℚ) ≤ 0 ∨ 1 < (2 : ℚ)) ∧
    (findHPD ([] : List (PPoint ℚ)) 2 = [] ∧
     findHPD [(⟨0, 1⟩ : PPoint ℚ)] 2 = findHPD [(⟨0, 1⟩ : PPoint ℚ)] ((19 : ℚ) / 20) ∧
     findHPDWarnings [(⟨0, 1⟩ : PPoint ℚ)] (2 : ℚ) =
       ["Invalid confidence level provided to findHPD. Using 0.95 as default."]) :=
  ⟨by simp, by norm_num,
   findHPD_invalid_inputs [(⟨0, 1⟩ : PPoint ℚ)] 2 (by simp) (by norm_num)⟩

/-- The accumulation loop keeps a prefix of the list it walks. -/
theorem collectPoints_eq_take {α : Type} [LinearOrderedField α] (t : α) :
    ∀ (c : α) (l : List (PPoint α)), ∃ k, collectPoints t c l = l.take k := by
  intro c l
  induction l generalizing c with
  | nil => exact ⟨0, rfl⟩
  | cons p rest ih =>
      by_cases h : t ≤ c + p.probability
      · exact ⟨1, by simp [collectPoints, h]⟩
      · obtain ⟨k, hk⟩ := ih (c + p.probability)
        exact ⟨k + 1, by simp [collectPoints, h, hk]⟩

/-- If the whole list reaches the target, so does the collected prefix. -/
theorem collectPoints_reaches {α : Type} [LinearOrderedField α] (t : α) :
    ∀ (c : α) (l : List (PPoint α)), c < t → t ≤ c + sumProb l →
      t ≤ c + sumProb (collectPoints t c l) := by
  intro c l
  induction l generalizing c with
  | nil =>
      intro hc hl
      simp only [sumProb, List.map_nil, List.sum_nil, add_zero] at hl
      exact absurd hl (not_le.mpr hc)
  | cons p rest ih =>
      intro hc hl
      by_cases h : t ≤ c + p.probability
      · rw [collectPoints, if_pos h]
        simpa [sumProb] using h
      · have hc' : c + p.probability < t := not_le.mp h
        have hl' : t ≤ (c + p.probability) + sumProb rest := by
          simp only [sumProb, List.map_cons, List.sum_cons] at hl
          simp only [sumProb]
          linarith
        have := ih (c + p.probability) hc' hl'
        simp only [collectPoints, if_neg h, sumProb, List.map_cons, List.sum_cons]
        simp only [sumProb] at this
        linarith

/-- Every strict prefix of the collected points stays below the target: the
loop stops at the first point whose cumulative probability reaches it. -/
theorem collectPoints_min {α : Type} [LinearOrderedField α] (t : α) :
    ∀ (c : α) (l : List (PPoint α)), c < t →
      ∀ k, k < (collectPoints t c l).length →
        c + sumProb ((collectPoints t c l).take k) < t := by
  intro c l
  induction l generalizing c with
  | nil => simp [collectPoints]
  | cons p rest ih =>
      intro hc k hk
      by_cases h : t ≤ c + p.probability
      · simp only [collectPoints, if_pos h, List.length_singleton] at hk
        interval_cases k
        simpa [sumProb] using hc
      · simp only [collectPoints, if_neg h, List.length_cons] at hk
        cases k with
        | zero => simpa [sumProb] using hc
        | succ j =>
            have hj : j < (collectPoints t (c + p.probability) rest).length :=
              Nat.lt_of_succ_lt_succ hk
            have := ih (c + p.probability) (not_le.mp h) j hj
            simp only [collectPoints, if_neg h, List.take_succ_cons, sumProb,
              List.map_cons, List.sum_cons]
            simp only [sumProb] at this
            linarith

/-- The accumulation loop never returns an empty list on a non-empty input. -/
theorem collectPoints_ne_nil {α : Type} [LinearOrderedField α] (t c : α)
    (p : PPoint α) (rest : List (PPoint α)) : collectPoints t c (p :: rest) ≠ [] := by
  by_cases h : t ≤ c + p.probability <;> simp [collectPoints, h]

/-- Every calendar year between the running interval's endpoints — and every
later point of the cal-sorted tail — is covered by one of the merged
intervals. -/
theorem buildIntervals_cover {α : Type} [LinearOrderedField α] :
    ∀ (rest : List (PPoint α)) (start prev : PPoint α),
      start.cal_BP ≤ prev.cal_BP →
      List.Sorted (fun a b : PPoint α => a.cal_BP ≤ b.cal_BP) (prev :: rest) →
      (∀ q : ℚ, start.cal_BP ≤ q → q ≤ prev.cal_BP →
          ∃ I ∈ buildIntervals start prev rest, I.min ≤ q ∧ q ≤ I.max) ∧
      (∀ x ∈ rest, ∃ I ∈ buildIntervals start prev rest,
          I.min ≤ x.cal_BP ∧ x.cal_BP ≤ I.max) := by
  intro rest
  induction rest with
  | nil =>
      intro start prev _ _
      refine ⟨fun q h1 h2 => ⟨⟨start.cal_BP, prev.cal_BP⟩, by simp [buildIntervals], h1, h2⟩,
        by simp⟩
  | cons c r ihr =>
      intro start prev hsp hsort
      have hpc : prev.cal_BP ≤ c.cal_BP := (List.sorted_cons.mp hsort).1 c (by simp)
      have hsort' := (List.sorted_cons.mp hsort).2
      by_cases hgap : 1 < c.cal_BP - prev.cal_BP
      · have heq : buildIntervals start prev (c :: r) =
            ⟨start.cal_BP, prev.cal_BP⟩ :: buildIntervals c c r := by
          simp [buildIntervals, hgap]
        have ih := ihr c c (le_refl _) hsort'
        constructor
        · intro q h1 h2
          exact ⟨⟨start.cal_BP, prev.cal_BP⟩, by simp [heq], h1, h2⟩
        · intro x hx
          rcases List.mem_cons.mp hx with hx | hx
          · subst hx
            obtain ⟨I, hI, hI1, hI2⟩ := ih.1 x.cal_BP (le_refl _) (le_refl _)
            exact ⟨I, by simp [heq, hI], hI1, hI2⟩
          · obtain ⟨I, hI, hI1, hI2⟩ := ih.2 x hx
            exact ⟨I, by simp [heq, hI], hI1, hI2⟩
      · have heq : buildIntervals start prev (c :: r) = buildIntervals start c r := by
          simp [buildIntervals, hgap]
        have ih := ihr start c (le_trans hsp hpc) hsort'
        constructor
        · intro q h1 h2
          rw [heq]
          exact ih.1 q h1 (le_trans h2 hpc)
        · intro x hx
          rw [heq]
          rcases List.mem_cons.mp hx with hx | hx
          · subst hx
            exact ih.1 x.cal_BP (le_trans hsp hpc) (le_refl _)
          · exact ih.2 x hx

/-- C1 (amended): for a non-empty distribution with nonnegative probabilities
of positive total and confidence in `(0, 1]`, the included points are a
prefix of the descending-probability sort (so every included probability is
at least every excluded one), their cumulative probability is the first to
reach `confidence × total`, and every included point lies inside one of the
returned intervals.  (The original claim asserted the density property for
every point *covered* by an interval; `findHPD_covered_density_cex` refutes
that.) -/
theorem findHPD_hpd_properties {α : Type} [LinearOrderedField α]
    (d : List (PPoint α)) (c : α) (hd : d ≠ []) (hc0 : 0 < c) (hc1 : c ≤ 1)
    (hnn : ∀ p ∈ d, 0 ≤ p.probability) (hpos : 0 < sumProb d) :
    (∃ k, includedPoints d c = (sortByProbDesc d).take k) ∧
    (sumProb d * c ≤ sumProb (includedPoints d c)) ∧
    (∀ k, k < (includedPoints d c).length →
        sumProb ((includedPoints d c).take k) < sumProb d * c) ∧
    (∀ x ∈ includedPoints d c, ∀ y ∈ d, y ∉ includedPoints d c →
        y.probability ≤ x.probability) ∧
    (∀ x ∈ includedPoints d c, ∃ I ∈ findHPD d c,
        I.min ≤ x.cal_BP ∧ x.cal_BP ≤ I.max) := by
  have hcond : ¬(c ≤ 0 ∨ 1 < c) := not_or.mpr ⟨not_le.mpr hc0, not_lt.mpr hc1⟩
  have hSperm : List.Perm (sortByProbDesc d) d := List.perm_insertionSort _ d
  have hsumS : sumProb (sortByProbDesc d) = sumProb d := by
    simpa [sumProb] using (hSperm.map (fun p : PPoint α => p.probability)).sum_eq
  have hIncEq : includedPoints d c = collectPoints (sumProb d * c) 0 (sortByProbDesc d) := by
    simp [includedPoints, if_neg hcond, sumProb]
  have ht : (0 : α) < sumProb d * c := mul_pos hpos hc0
  refine ⟨?_, ?_, ?_, ?_, ?_⟩
  · rw [hIncEq]
    exact collectPoints_eq_take _ 0 _
  · have hwhole : sumProb d * c ≤ 0 + sumProb (sortByProbDesc d) := by
      rw [hsumS, zero_add]
      calc sumProb d * c ≤ sumProb d * 1 :=
            mul_le_mul_of_nonneg_left hc1 (le_of_lt hpos)
        _ = sumProb d := mul_one _
    have := collectPoints_reaches (sumProb d * c) 0 (sortByProbDesc d) ht hwhole
    rw [hIncEq]
    linarith
  · intro k hk
    rw [hIncEq] at hk ⊢
    have := collectPoints_min (sumProb d * c) 0 (sortByProbDesc d) ht k hk
    linarith
  · obtain ⟨k, hk⟩ := collectPoints_eq_take (sumProb d * c) (0 : α) (sortByProbDesc d)
    rw [hIncEq, hk]
    intro x hx y hy hyn
    have hyS : y ∈ sortByProbDesc d := (List.mem_insertionSort _).mpr hy
    have hsplit := List.take_append_drop k (sortByProbDesc d)
    have hyd : y ∈ (sortByProbDesc d).drop k := by
      rcases List.mem_append.mp (by rw [hsplit]; exact hyS) with h | h
      · exact absurd h hyn
      · exact h
    have hsorted : List.Sorted (fun a b : PPoint α => b.probability ≤ a.probability)
        (sortByProbDesc d) := List.sorted_insertionSort _ d
    have hpw : List.Pairwise (fun a b : PPoint α => b.probability ≤ a.probability)
        ((sortByProbDesc d).take k ++ (sortByProbDesc d).drop k) := by
      rw [hsplit]; exact hsorted
    exact (List.pairwise_append.mp hpw).2.2 x hx y hyd
  · have hE : d.isEmpty = false := by
      cases d with
      | nil => exact absurd rfl hd
      | cons a l => rfl
    rcases hS : sortByProbDesc d with _ | ⟨p0, rest0⟩
    · exact absurd ((hS ▸ hSperm).symm.eq_nil) hd
    · have hIncNe : includedPoints d c ≠ [] := by
        rw [hIncEq, hS]
        exact collectPoints_ne_nil _ _ _ _
      rcases hSC : sortByCal (includedPoints d c) with _ | ⟨p, rest⟩
      · have hnil : List.Perm (includedPoints d c) ([] : List (PPoint α)) :=
          hSC ▸ (List.perm_insertionSort _ (includedPoints d c)).symm
        exact absurd hnil.eq_nil hIncNe
      · have hFH : findHPD d c = buildIntervals p p rest := by
          simp [findHPD, hE, hSC]
        have hsorted2 : List.Sorted (fun a b : PPoint α => a.cal_BP ≤ b.cal_BP)
            (p :: rest) := hSC ▸ List.sorted_insertionSort _ (includedPoints d c)
        have hcover := buildIntervals_cover rest p p (le_refl _) hsorted2
        intro x hx
        have hxSC : x ∈ sortByCal (includedPoints d c) := (List.mem_insertionSort _).mpr hx
        rw [hSC] at hxSC
        rw [hFH]
        rcases List.mem_cons.mp hxSC with hx' | hx'
        · subst hx'
          exact hcover.1 x.cal_BP (le_refl _) (le_refl _)
        · exact hcover.2 x hx'

/-- Witness for `findHPD_hpd_properties` on the specification's synthetic
five-point scenario at confidence 0.6. -/
theorem findHPD_hpd_properties_witness :
    (d5 ≠ [] ∧ (0 : ℚ) < 3/5 ∧ (3/5 : ℚ) ≤ 1 ∧ (∀ p ∈ d5, 0 ≤ p.probability) ∧
      0 < sumProb d5) ∧
    ((∃ k, includedPoints d5 (3/5) = (sortByProbDesc d5).take k) ∧
     (sumProb d5 * (3/5) ≤ sumProb (includedPoints d5 (3/5))) ∧
     (∀ k, k < (includedPoints d5 (3/5)).length →
         sumProb ((includedPoints d5 (3/5)).take k) < sumProb d5 * (3/5)) ∧
     (∀ x ∈ includedPoints d5 (3/5), ∀ y ∈ d5, y ∉ includedPoints d5 (3/5) →
         y.probability ≤ x.probability) ∧
     (∀ x ∈ includedPoints d5 (3/5), ∃ I ∈ findHPD d5 (3/5),
         I.min ≤ x.cal_BP ∧ x.cal_BP ≤ I.max)) :=
  ⟨⟨by simp [d5], by norm_num, by norm_num, by norm_num [d5], by norm_num [d5, sumProb]⟩,
   findHPD_hpd_properties d5 (3/5) (by simp [d5]) (by norm_num) (by norm_num)
     (by norm_num [d5]) (by norm_num [d5, sumProb])⟩

/-- A left fold of `min` never exceeds its initial value. -/
theorem foldl_min_le_init : ∀ (r : List ℚ) (a : ℚ), r.foldl min a ≤ a := by
  intro r
  induction r with
  | nil => intro a; exact le_refl a
  | cons y r' ih =>
      intro a
      exact le_trans (ih (min a y)) (min_le_left a y)

/-- A left fold of `min` is a lower bound of the traversed elements. -/
theorem foldl_min_le : ∀ (r : List ℚ) (a y : ℚ), y ∈ r → r.foldl min a ≤ y := by
  intro r
  induction r with
  | nil => intro a y hy; exact absurd hy (List.not_mem_nil y)
  | cons z r' ih =>
      intro a y hy
      rcases List.mem_cons.mp hy with hy | hy
      · subst hy
        exact le_trans (foldl_min_le_init r' (min a y)) (min_le_right a y)
      · exact ih (min a z) y hy

/-- A left fold of `min` is one of the candidates. -/
theorem foldl_min_mem : ∀ (r : List ℚ) (a : ℚ), r.foldl min a ∈ a :: r := by
  intro r
  induction r with
  | nil => intro a; simp
  | cons y r' ih =>
      intro a
      rcases List.mem_cons.mp (ih (min a y)) with h | h
      · rcases min_choice a y with hm | hm <;> rw [List.foldl_cons, h, hm] <;> simp
      · simp [List.foldl_cons, List.mem_cons.mpr (Or.inr (List.mem_cons.mpr (Or.inr h)))]

/-- A left fold of `max` is at least its initial value. -/
theorem foldl_max_ge_init : ∀ (r : List ℚ) (a : ℚ), a ≤ r.foldl max a := by
  intro r
  induction r with
  | nil => intro a; exact le_refl a
  | cons y r' ih =>
      intro a
      exact le_trans (le_max_left a y) (ih (max a y))

/-- A left fold of `max` is an upper bound of the traversed elements. -/
theorem foldl_max_ge : ∀ (r : List ℚ) (a y : ℚ), y ∈ r → y ≤ r.foldl max a := by
  intro r
  induction r with
  | nil => intro a y hy; exact absurd hy (List.not_mem_nil y)
  | cons z r' ih =>
      intro a y hy
      rcases List.mem_cons.mp hy with hy | hy
      · subst hy
        exact le_trans (le_max_right a y) (foldl_max_ge_init r' (max a y))
      · exact ih (max a z) y hy

/-- A left fold of `max` is one of the candidates. -/
theorem foldl_max_mem : ∀ (r : List ℚ) (a : ℚ), r.foldl max a ∈ a :: r := by
  intro r
  induction r with
  | nil => intro a; simp
  | cons y r' ih =>
      intro a
      rcases List.mem_cons.mp (ih (max a y)) with h | h
      · rcases max_choice a y with hm | hm <;> rw [List.foldl_cons, h, hm] <;> simp
      · simp [List.foldl_cons, List.mem_cons.mpr (Or.inr (List.mem_cons.mpr (Or.inr h)))]

/-- `jsMin` of a non-empty list is an element of it. -/
theorem jsMin_mem (l : List ℚ) (h : l ≠ []) : jsMin l ∈ l := by
  cases l with
  | nil => exact absurd rfl h
  | cons x r => exact foldl_min_mem r x

/-- `jsMin` is a lower bound. -/
theorem jsMin_le (l : List ℚ) (y : ℚ) (hy : y ∈ l) : jsMin l ≤ y := by
  cases l with
  | nil => exact absurd hy (List.not_mem_nil y)
  | cons x r =>
      rcases List.mem_cons.mp hy with h | h
      · subst h; exact foldl_min_le_init r y
      · exact foldl_min_le r x y h

/-- `jsMax` of a non-empty list is an element of it. -/
theorem jsMax_mem (l : List ℚ) (h : l ≠ []) : jsMax l ∈ l := by
  cases l with
  | nil => exact absurd rfl h
  | cons x r => exact foldl_max_mem r x

/-- `jsMax` is an upper bound. -/
theorem jsMax_ge (l : List ℚ) (y : ℚ) (hy : y ∈ l) : y ≤ jsMax l := by
  cases l with
  | nil => exact absurd hy (List.not_mem_nil y)
  | cons x r =>
      rcases List.mem_cons.mp hy with h | h
      · subst h; exact foldl_max_ge_init r y
      · exact foldl_max_ge r x y h

/-- `jsMin` only depends on the multiset of elements. -/
theorem jsMin_perm (l1 l2 : List ℚ) (h : List.Perm l1 l2) : jsMin l1 = jsMin l2 := by
  cases l1 with
  | nil => rw [h.symm.eq_nil]
  | cons x r =>
      have h1 : l2 ≠ [] := fun hn => by simp [hn] at h
      refine le_antisymm ?_ ?_
      · exact jsMin_le _ _ (h.mem_iff.mpr (jsMin_mem l2 h1))
      · exact jsMin_le _ _ (h.mem_iff.mp (jsMin_mem (x :: r) (by simp)))

/-- `jsMax` only depends on the multiset of elements. -/
theorem jsMax_perm (l1 l2 : List ℚ) (h : List.Perm l1 l2) : jsMax l1 = jsMax l2 := by
  cases l1 with
  | nil => rw [h.symm.eq_nil]
  | cons x r =>
      have h1 : l2 ≠ [] := fun hn => by simp [hn] at h
      refine le_antisymm ?_ ?_
      · exact jsMax_ge _ _ (h.mem_iff.mp (jsMax_mem (x :: r) (by simp)))
      · exact jsMax_ge _ _ (h.mem_iff.mpr (jsMax_mem l2 h1))

/-- `sortQ` sorts. -/
theorem sortQ_sorted (l : List ℚ) : List.Sorted (· ≤ ·) (sortQ l) :=
  List.sorted_insertionSort _ l

/-- `sortQ` permutes. -/
theorem sortQ_perm (l : List ℚ) : List.Perm (sortQ l) l :=
  List.perm_insertionSort _ l

/-- `sortQ` is determined by the multiset of elements. -/
theorem sortQ_congr (l1 l2 : List ℚ) (h : List.Perm l1 l2) : sortQ l1 = sortQ l2 :=
  List.eq_of_perm_of_sorted ((sortQ_perm l1).trans (h.trans (sortQ_perm l2).symm))
    (sortQ_sorted l1) (sortQ_sorted l2)

/-- A gap between ordered years contributes a nonnegative width. -/
theorem gapW_nonneg (a b : ℚ) (h : a ≤ b) : 0 ≤ gapW a b := by
  unfold gapW
  split <;> linarith

/-- Splitting a span at an intermediate year never decreases the counted
width. -/
theorem gapW_triangle (x y z : ℚ) (hxy : x ≤ y) (hyz : y ≤ z) :
    gapW x z ≤ gapW x y + gapW y z := by
  unfold gapW
  split_ifs <;> linarith

/-- Inserting a year into a sorted list never decreases the total width. -/
theorem widthW_orderedInsert (y : ℚ) :
    ∀ (M : List ℚ), List.Sorted (· ≤ ·) M →
      widthW M ≤ widthW (List.orderedInsert (· ≤ ·) y M) := by
  intro M
  induction M with
  | nil => intro _; simp [List.orderedInsert, widthW]
  | cons x M' ih =>
      intro hs
      by_cases hyx : y ≤ x
      · simp only [List.orderedInsert, if_pos hyx]
        have h0 : (0 : ℚ) ≤ gapW y x := gapW_nonneg y x hyx
        simp only [widthW]
        linarith
      · have hxy : x ≤ y := le_of_not_le hyx
        simp only [List.orderedInsert, if_neg hyx]
        cases M' with
        | nil =>
            have h0 : (0 : ℚ) ≤ gapW x y := gapW_nonneg x y hxy
            simp only [List.orderedInsert, widthW]
            linarith
        | cons z M'' =>
            have hxz : x ≤ z := (List.sorted_cons.mp hs).1 z (by simp)
            have hs' := (List.sorted_cons.mp hs).2
            have hins : List.orderedInsert (· ≤ ·) y (z :: M'') =
                if y ≤ z then y :: z :: M'' else z :: List.orderedInsert (· ≤ ·) y M'' := rfl
            by_cases hyz : y ≤ z
            · rw [hins, if_pos hyz]
              have ht := gapW_triangle x y z hxy hyz
              simp only [widthW]
              linarith
            · have h2 := ih hs'
              rw [hins, if_neg hyz]
              rw [hins, if_neg hyz] at h2
              simp only [widthW]
              linarith

/-- Appending further years never decreases the sorted total width. -/
theorem widthW_sortQ_append :
    ∀ (E L : List ℚ), widthW (sortQ L) ≤ widthW (sortQ (L ++ E)) := by
  intro E
  induction E with
  | nil => intro L; simp
  | cons e E' ih =>
      intro L
      have h1 : widthW (sortQ L) ≤ widthW (sortQ (e :: L)) := by
        have hdef : sortQ (e :: L) = List.orderedInsert (· ≤ ·) e (sortQ L) := rfl
        rw [hdef]
        exact widthW_orderedInsert e (sortQ L) (sortQ_sorted L)
      have h2 : sortQ (L ++ e :: E') = sortQ ((e :: L) ++ E') :=
        sortQ_congr _ _ (List.perm_middle.trans (List.Perm.refl _))
      calc widthW (sortQ L) ≤ widthW (sortQ (e :: L)) := h1
        _ ≤ widthW (sortQ ((e :: L) ++ E')) := ih (e :: L)
        _ = widthW (sortQ (L ++ e :: E')) := by rw [h2]

/-- C1 counterexample: on `dC1` with confidence `0.7` the code returns the
single interval `[100, 101]`.  The input point at `cal_BP = 100.5` (with
probability `1/20`) is covered by that interval, while the input point at
`cal_BP = 103` (with probability `1/5 > 1/20`) is not covered by any returned
interval, so a covered point has strictly smaller probability than an
uncovered one (and no probabilities are tied). -/
theorem findHPD_covered_density_cex :
    findHPD dC1 (7 / 10 : ℚ) = [⟨100, 101⟩] ∧
    (⟨201 / 2, 1 / 20⟩ : PPoint ℚ) ∈ dC1 ∧
    (⟨103, 1 / 5⟩ : PPoint ℚ) ∈ dC1 ∧
    ((100 : ℚ) ≤ 201 / 2 ∧ (201 / 2 : ℚ) ≤ 101) ∧
    ¬((100 : ℚ) ≤ 103 ∧ (103 : ℚ) ≤ 101) ∧
    ((1 : ℚ) / 20 < 1 / 5) := by
  refine ⟨?_, ?_, ?_, by norm_num, by norm_num, by norm_num⟩
  · norm_num [findHPD, dC1, includedPoints, sortByProbDesc, sortByCal,
      List.insertionSort, List.orderedInsert, collectPoints, buildIntervals]
  · simp [dC1]
  · simp [dC1]

/-- The interval-merging loop never returns an empty interval list. -/
theorem buildIntervals_ne_nil {α : Type} [LinearOrderedField α] :
    ∀ (rest : List (PPoint α)) (s p : PPoint α), buildIntervals s p rest ≠ [] := by
  intro rest
  induction rest with
  | nil => intro s p; simp [buildIntervals]
  | cons c r ih =>
      intro s p
      by_cases hgap : 1 < c.cal_BP - p.cal_BP
      · simp [buildIntervals, hgap]
      · simpa [buildIntervals, hgap] using ih s c

/-- The summed interval widths equal the running-interval width plus the
small-gap width of the remaining calendar years. -/
theorem totalWidth_buildIntervals {α : Type} [LinearOrderedField α] :
    ∀ (rest : List (PPoint α)) (s p : PPoint α),
      totalWidth (buildIntervals s p rest) =
        (p.cal_BP - s.cal_BP) + widthW (p.cal_BP :: rest.map (·.cal_BP)) := by
  intro rest
  induction rest with
  | nil => intro s p; simp [buildIntervals, totalWidth, widthW]
  | cons c r ih =>
      intro s p
      by_cases hgap : 1 < c.cal_BP - p.cal_BP
      · have hg : gapW p.cal_BP c.cal_BP = 0 := by
          rw [gapW, if_neg (by linarith)]
        simp only [buildIntervals, if_pos hgap, totalWidth, List.map_cons, List.sum_cons]
        have h2 := ih c c
        simp only [totalWidth] at h2
        rw [h2]
        simp only [widthW, hg, sub_self, zero_add]
      · have hg : gapW p.cal_BP c.cal_BP = c.cal_BP - p.cal_BP := by
          rw [gapW, if_pos (by linarith)]
        simp only [buildIntervals, if_neg hgap]
        rw [ih s c]
        simp only [List.map_cons, widthW, hg]
        ring

/-- The first merged interval starts at the running start; the last merged
interval ends at the last cal-sorted point. -/
theorem buildIntervals_head_last {α : Type} [LinearOrderedField α] :
    ∀ (rest : List (PPoint α)) (s p : PPoint α),
      (∃ I1, (buildIntervals s p rest).head? = some I1 ∧ I1.min = s.cal_BP) ∧
      (∃ IL, (buildIntervals s p rest).getLast? = some IL ∧
        IL.max = ((p :: rest).getLast (List.cons_ne_nil p rest)).cal_BP) := by
  intro rest
  induction rest with
  | nil =>
      intro s p
      exact ⟨⟨⟨s.cal_BP, p.cal_BP⟩, by simp [buildIntervals], rfl⟩,
        ⟨⟨s.cal_BP, p.cal_BP⟩, by simp [buildIntervals], by simp⟩⟩
  | cons c r ih =>
      intro s p
      by_cases hgap : 1 < c.cal_BP - p.cal_BP
      · have hbuild : buildIntervals s p (c :: r) =
            ⟨s.cal_BP, p.cal_BP⟩ :: buildIntervals c c r := by
          simp [buildIntervals, hgap]
        constructor
        · exact ⟨⟨s.cal_BP, p.cal_BP⟩, by rw [hbuild]; rfl, rfl⟩
        · obtain ⟨IL, hIL, hILmax⟩ := (ih c c).2
          refine ⟨IL, ?_, ?_⟩
          · rw [hbuild]
            rcases hbn : buildIntervals c c r with _ | ⟨I0, L'⟩
            · exact absurd hbn (buildIntervals_ne_nil r c c)
            · rw [hbn] at hIL
              rw [List.getLast?_cons_cons]
              exact hIL
          · rw [hILmax]
            simp [List.getLast_cons]
      · have hbuild : buildIntervals s p (c :: r) = buildIntervals s c r := by
          simp [buildIntervals, hgap]
        constructor
        · obtain ⟨I1, h1, h2⟩ := (ih s c).1
          exact ⟨I1, by rw [hbuild]; exact h1, h2⟩
        · obtain ⟨IL, hIL, hILmax⟩ := (ih s c).2
          refine ⟨IL, by rw [hbuild]; exact hIL, ?_⟩
          rw [hILmax]
          simp [List.getLast_cons]

/-- In a cal-sorted list every point is at most the last one. -/
theorem sorted_cal_le_getLast {α : Type} [LinearOrderedField α] :
    ∀ (l : List (PPoint α)) (h : l ≠ []),
      List.Sorted (fun a b : PPoint α => a.cal_BP ≤ b.cal_BP) l →
      ∀ x ∈ l, x.cal_BP ≤ (l.getLast h).cal_BP := by
  intro l
  induction l with
  | nil => intro h; exact absurd rfl h
  | cons a t ih =>
      intro h hs x hx
      cases t with
      | nil =>
          rcases List.mem_cons.mp hx with hx | hx
          · subst hx; simp
          · exact absurd hx (List.not_mem_nil x)
      | cons b t' =>
          rw [List.getLast_cons (List.cons_ne_nil b t')]
          rcases List.mem_cons.mp hx with hx | hx
          · subst hx
            exact (List.sorted_cons.mp hs).1 _ (List.getLast_mem (List.cons_ne_nil b t'))
          · exact ih (List.cons_ne_nil b t') (List.sorted_cons.mp hs).2 x hx

/-- In a cal-sorted list every point is at least the head. -/
theorem sorted_cal_head_le {α : Type} [LinearOrderedField α] (a : PPoint α)
    (t : List (PPoint α))
    (hs : List.Sorted (fun u v : PPoint α => u.cal_BP ≤ v.cal_BP) (a :: t)) :
    ∀ x ∈ a :: t, a.cal_BP ≤ x.cal_BP := by
  intro x hx
  rcases List.mem_cons.mp hx with hx | hx
  · subst hx; exact le_refl _
  · exact (List.sorted_cons.mp hs).1 x hx

/-- `jsMin` of the calendar years of a cal-sorted list is the head's year. -/
theorem jsMin_map_cal_sorted {α : Type} [LinearOrderedField α] (p : PPoint α)
    (rest : List (PPoint α))
    (hs : List.Sorted (fun u v : PPoint α => u.cal_BP ≤ v.cal_BP) (p :: rest)) :
    jsMin ((p :: rest).map (·.cal_BP)) = p.cal_BP := by
  refine le_antisymm (jsMin_le _ _ (by simp)) ?_
  have hmem := jsMin_mem ((p :: rest).map (·.cal_BP)) (by simp)
  obtain ⟨w, hw, hweq⟩ := List.mem_map.mp hmem
  rw [← hweq]
  exact sorted_cal_head_le p rest hs w hw

/-- `jsMax` of the calendar years of a cal-sorted list is the last's year. -/
theorem jsMax_map_cal_sorted {α : Type} [LinearOrderedField α] (p : PPoint α)
    (rest : List (PPoint α))
    (hs : List.Sorted (fun u v : PPoint α => u.cal_BP ≤ v.cal_BP) (p :: rest)) :
    jsMax ((p :: rest).map (·.cal_BP)) =
      ((p :: rest).getLast (List.cons_ne_nil p rest)).cal_BP := by
  refine le_antisymm ?_ ?_
  · have hmem := jsMax_mem ((p :: rest).map (·.cal_BP)) (by simp)
    obtain ⟨w, hw, hweq⟩ := List.mem_map.mp hmem
    rw [← hweq]
    exact sorted_cal_le_getLast _ _ hs w hw
  · exact jsMax_ge _ _ (List.mem_map_of_mem _ (List.getLast_mem _))

/-- Every merged interval lies between the running start and the last
cal-sorted point. -/
theorem buildIntervals_bounds {α : Type} [LinearOrderedField α] :
    ∀ (rest : List (PPoint α)) (s p : PPoint α),
      s.cal_BP ≤ p.cal_BP →
      List.Sorted (fun a b : PPoint α => a.cal_BP ≤ b.cal_BP) (p :: rest) →
      ∀ I ∈ buildIntervals s p rest,
        s.cal_BP ≤ I.min ∧ I.max ≤ ((p :: rest).getLast (List.cons_ne_nil p rest)).cal_BP := by
  intro rest
  induction rest with
  | nil =>
      intro s p hsp _ I hI
      simp only [buildIntervals, List.mem_singleton] at hI
      subst hI
      simp
  | cons c r ih =>
      intro s p hsp hs I hI
      have hpc : p.cal_BP ≤ c.cal_BP := (List.sorted_cons.mp hs).1 c (by simp)
      have hs' := (List.sorted_cons.mp hs).2
      by_cases hgap : 1 < c.cal_BP - p.cal_BP
      · have hbuild : buildIntervals s p (c :: r) =
            ⟨s.cal_BP, p.cal_BP⟩ :: buildIntervals c c r := by
          simp [buildIntervals, hgap]
        rw [hbuild] at hI
        rcases List.mem_cons.mp hI with hI | hI
        · subst hI
          refine ⟨le_refl _, ?_⟩
          rw [List.getLast_cons (List.cons_ne_nil c r)]
          exact le_trans hpc (sorted_cal_le_getLast _ (List.cons_ne_nil c r) hs' c (by simp))
        · obtain ⟨h1, h2⟩ := ih c c (le_refl _) hs' I hI
          refine ⟨le_trans (le_trans hsp hpc) h1, ?_⟩
          rw [List.getLast_cons (List.cons_ne_nil c r)]
          exact h2
      · have hbuild : buildIntervals s p (c :: r) = buildIntervals s c r := by
          simp [buildIntervals, hgap]
        rw [hbuild] at hI
        obtain ⟨h1, h2⟩ := ih s c (le_trans hsp hpc) hs' I hI
        refine ⟨h1, ?_⟩
        rw [List.getLast_cons (List.cons_ne_nil c r)]
        exact h2

/-- A non-empty list of strictly positive probabilities has positive sum. -/
theorem sumProb_pos {α : Type} [LinearOrderedField α] (l : List (PPoint α))
    (hl : l ≠ []) (hp : ∀ x ∈ l, 0 < x.probability) : 0 < sumProb l := by
  cases l with
  | nil => exact absurd rfl hl
  | cons p rest =>
      have h1 : 0 < p.probability := hp p (by simp)
      have h2 : 0 ≤ (rest.map (·.probability)).sum := by
        refine List.sum_nonneg ?_
        intro x hx
        obtain ⟨y, hy, hyx⟩ := List.mem_map.mp hx
        rw [← hyx]
        exact le_of_lt (hp y (List.mem_cons_of_mem _ hy))
      simp only [sumProb, List.map_cons, List.sum_cons]
      linarith

/-- On a list of strictly positive points followed by zero-probability
points, with target exactly the cumulative total, the accumulation loop
collects exactly the positive points. -/
theorem collectPoints_exact {α : Type} [LinearOrderedField α] :
    ∀ (P Z : List (PPoint α)) (c : α),
      (∀ x ∈ P, 0 < x.probability) → (∀ x ∈ Z, x.probability = 0) → P ≠ [] →
      collectPoints (c + sumProb P) c (P ++ Z) = P := by
  intro P
  induction P with
  | nil => intro Z c _ _ h; exact absurd rfl h
  | cons p P' ih =>
      intro Z c hP hZ _
      by_cases hP' : P' = []
      · subst hP'
        have hcond : c + sumProb [p] ≤ c + p.probability := by simp [sumProb]
        simp only [List.cons_append, List.nil_append, collectPoints]
        rw [if_pos hcond]
      · have hpos' : 0 < sumProb P' :=
          sumProb_pos P' hP' (fun x hx => hP x (List.mem_cons_of_mem _ hx))
        have hcond : ¬(c + sumProb (p :: P') ≤ c + p.probability) := by
          simp only [sumProb, List.map_cons, List.sum_cons]
          simp only [sumProb] at hpos'
          linarith
        simp only [List.cons_append, collectPoints]
        rw [if_neg hcond]
        have harr : c + sumProb (p :: P') = (c + p.probability) + sumProb P' := by
          simp only [sumProb, List.map_cons, List.sum_cons]; ring
        rw [harr]
        have hih := ih Z (c + p.probability) (fun x hx => hP x (List.mem_cons_of_mem _ hx)) hZ hP'
        exact congrArg (List.cons p) hih

/-- Raising the target extends the collected prefix. -/
theorem collectPoints_mono {α : Type} [LinearOrderedField α] (t1 t2 : α) (h12 : t1 ≤ t2) :
    ∀ (c : α) (l : List (PPoint α)),
      ∃ E, collectPoints t1 c l ++ E = collectPoints t2 c l := by
  intro c l
  induction l generalizing c with
  | nil => exact ⟨[], rfl⟩
  | cons p rest ih =>
      by_cases h2 : t2 ≤ c + p.probability
      · have h1 : t1 ≤ c + p.probability := le_trans h12 h2
        exact ⟨[], by simp [collectPoints, h1, h2]⟩
      · by_cases h1 : t1 ≤ c + p.probability
        · exact ⟨collectPoints t2 (c + p.probability) rest,
            by simp [collectPoints, h1, h2]⟩
        · obtain ⟨E, hE⟩ := ih (c + p.probability)
          refine ⟨E, ?_⟩
          simp only [collectPoints, if_neg h1, if_neg h2, List.cons_append]
          rw [hE]

/-- On a non-empty distribution the included list is never empty. -/
theorem includedPoints_ne_nil {α : Type} [LinearOrderedField α]
    (d : List (PPoint α)) (c : α) (hd : d ≠ []) : includedPoints d c ≠ [] := by
  have hSperm : List.Perm (sortByProbDesc d) d := List.perm_insertionSort _ d
  rcases hS : sortByProbDesc d with _ | ⟨p0, rest0⟩
  · exact absurd ((hS ▸ hSperm).symm.eq_nil) hd
  · simp only [includedPoints]
    rw [hS]
    exact collectPoints_ne_nil _ _ _ _

/-- The total interval width of a `findHPD` call is the small-gap width of
the sorted calendar years of its included points. -/
theorem totalWidth_findHPD {α : Type} [LinearOrderedField α]
    (d : List (PPoint α)) (c : α) (hd : d ≠ []) :
    totalWidth (findHPD d c) = widthW (sortQ ((includedPoints d c).map (·.cal_BP))) := by
  have hE : d.isEmpty = false := by
    cases d with
    | nil => exact absurd rfl hd
    | cons a l => rfl
  have hIncNe : includedPoints d c ≠ [] := includedPoints_ne_nil d c hd
  rcases hSC : sortByCal (includedPoints d c) with _ | ⟨p, rest⟩
  · have hnil : List.Perm (includedPoints d c) ([] : List (PPoint α)) :=
      hSC ▸ (List.perm_insertionSort _ (includedPoints d c)).symm
    exact absurd hnil.eq_nil hIncNe
  · have hFH : findHPD d c = buildIntervals p p rest := by
      simp [findHPD, hE, hSC]
    rw [hFH, totalWidth_buildIntervals rest p p]
    have hmapeq : p.cal_BP :: rest.map (·.cal_BP) =
        (sortByCal (includedPoints d c)).map (·.cal_BP) := by
      rw [hSC]; rfl
    have hsorted : List.Sorted (α := ℚ) (· ≤ ·)
        ((sortByCal (includedPoints d c)).map (·.cal_BP)) :=
      List.pairwise_map.mpr (List.sorted_insertionSort _ (includedPoints d c))
    have hperm2 : List.Perm ((sortByCal (includedPoints d c)).map (·.cal_BP))
        (sortQ ((includedPoints d c).map (·.cal_BP))) :=
      ((List.perm_insertionSort _ (includedPoints d c)).map
        (fun q : PPoint α => q.cal_BP)).trans (sortQ_perm _).symm
    have heq2 := List.eq_of_perm_of_sorted hperm2 hsorted (sortQ_sorted _)
    rw [sub_self, zero_add, hmapeq, heq2]

/-- The head of a non-trivial `dropWhile` result falsifies the predicate. -/
theorem dropWhile_head_false {β : Type} :
    ∀ (l : List β) (q : β → Bool) (z : β) (tail : List β),
      l.dropWhile q = z :: tail → q z = false := by
  intro l q
  induction l with
  | nil => intro z tail h; simp [List.dropWhile] at h
  | cons a l' ih =>
      intro z tail h
      by_cases ha : q a = true
      · rw [List.dropWhile_cons_of_pos ha] at h
        exact ih z tail h
      · have ha' : q a = false := Bool.eq_false_iff.mpr ha
        rw [List.dropWhile_cons_of_neg (by simp [ha'])] at h
        injection h with h1 h2
        rw [← h1]
        exact ha'

/-- At confidence `1` the accumulation collects exactly the
positive-probability points (a permutation of the nonzero points of the
input). -/
theorem includedPoints_conf_one {α : Type} [LinearOrderedField α]
    (d : List (PPoint α))
    (hnn : ∀ p ∈ d, 0 ≤ p.probability) (hpos : 0 < sumProb d) :
    List.Perm (includedPoints d 1) (d.filter (fun p => p.probability ≠ 0)) := by
  have hSperm : List.Perm (sortByProbDesc d) d := List.perm_insertionSort _ d
  have h1valid : ¬((1 : α) ≤ 0 ∨ 1 < (1 : α)) := by norm_num
  set q : PPoint α → Bool := fun x => decide (0 < x.probability) with hq
  set S : List (PPoint α) := sortByProbDesc d with hS
  set P : List (PPoint α) := S.takeWhile q with hP
  set Z : List (PPoint α) := S.dropWhile q with hZdef
  have hsortedS : List.Sorted (fun a b : PPoint α => b.probability ≤ a.probability) S := by
    rw [hS]
    exact List.sorted_insertionSort _ d
  have hPZ : P ++ Z = S := by
    rw [hP, hZdef]
    exact List.takeWhile_append_dropWhile _ _
  have hPpos : ∀ x ∈ P, 0 < x.probability := by
    intro x hx
    rw [hP] at hx
    have h := List.mem_takeWhile_imp hx
    rw [hq] at h
    simpa using h
  have hmemd : ∀ x ∈ Z, x ∈ d := by
    intro x hx
    rw [hZdef] at hx
    exact hSperm.mem_iff.mp ((List.dropWhile_sublist _).subset hx)
  have hZzero : ∀ x ∈ Z, x.probability = 0 := by
    intro x hx
    rcases hZc : Z with _ | ⟨z, tail⟩
    · rw [hZc] at hx
      exact absurd hx (List.not_mem_nil x)
    · have hzfalse : q z = false := by
        apply dropWhile_head_false S q z tail
        rw [← hZdef]
        exact hZc
      have hz0 : z.probability ≤ 0 := by
        rw [hq] at hzfalse
        simp only [decide_eq_false_iff_not, not_lt] at hzfalse
        exact hzfalse
      have hzd : z ∈ d := hmemd z (by rw [hZc]; simp)
      have hzeq : z.probability = 0 := le_antisymm hz0 (hnn z hzd)
      rw [hZc] at hx
      rcases List.mem_cons.mp hx with hx | hx
      · rw [hx]
        exact hzeq
      · have hsortedZ : List.Sorted (fun a b : PPoint α => b.probability ≤ a.probability)
            (z :: tail) := by
          rw [← hZc, hZdef]
          exact List.Pairwise.sublist (List.dropWhile_sublist _) hsortedS
        have hle : x.probability ≤ z.probability := (List.sorted_cons.mp hsortedZ).1 x hx
        have hxd : x ∈ d := hmemd x (by rw [hZc]; exact List.mem_cons_of_mem _ hx)
        exact le_antisymm (hzeq ▸ hle) (hnn x hxd)
  have hsumZ : sumProb Z = 0 := by
    refine List.sum_eq_zero ?_
    intro x hx
    obtain ⟨y, hy, hyx⟩ := List.mem_map.mp hx
    rw [← hyx]
    exact hZzero y hy
  have h1 : sumProb S = sumProb d := by
    simpa [sumProb] using (hSperm.map (fun p : PPoint α => p.probability)).sum_eq
  have hsumSplit : sumProb S = sumProb P + sumProb Z := by
    conv_lhs => rw [← hPZ]
    simp [sumProb]
  have hsumP : sumProb d = sumProb P := by
    rw [← h1, hsumSplit, hsumZ, add_zero]
  have hPne : P ≠ [] := by
    intro h
    rw [h] at hsumP
    have h0 : sumProb d = 0 := by rw [hsumP]; rfl
    rw [h0] at hpos
    exact lt_irrefl 0 hpos
  have hcx := collectPoints_exact P Z 0 hPpos hZzero hPne
  rw [zero_add, hPZ] at hcx
  have hinc1 : includedPoints d 1 = P := by
    simp only [includedPoints, if_neg h1valid]
    rw [mul_one, ← hS]
    have hdef : (List.map (fun x : PPoint α => x.probability) d).sum = sumProb d := rfl
    rw [hdef, hsumP]
    exact hcx
  have hfP : P.filter q = P := by
    refine List.filter_eq_self.mpr ?_
    intro a ha
    rw [hq]
    simpa using hPpos a ha
  have hfZ : Z.filter q = [] := by
    refine List.filter_eq_nil_iff.mpr ?_
    intro a ha
    rw [hq]
    simp only [decide_eq_true_eq, not_lt]
    rw [hZzero a ha]
  have hfilt : S.filter q = P := by
    have h3 : (P ++ Z).filter q = P := by
      rw [List.filter_append, hfP, hfZ, List.append_nil]
    rw [hPZ] at h3
    exact h3
  have hcongr : d.filter q = d.filter (fun p => p.probability ≠ 0) := by
    refine List.filter_congr ?_
    intro x hx
    rw [hq]
    show decide (0 < x.probability) = decide (x.probability ≠ 0)
    refine decide_eq_decide.mpr ?_
    exact ⟨fun h => ne_of_gt h, fun h => lt_of_le_of_ne (hnn x hx) (Ne.symm h)⟩
  rw [hinc1, ← hcongr, ← hfilt]
  exact hSperm.filter q

/-- C2: `findHPD(dist, 1.0)` spans exactly `[min calBP, max calBP]` of the
points with nonzero probability (first interval starts at the minimum, last
interval ends at the maximum, and every interval stays inside those bounds),
and for confidences `c1 ≤ c2` in `(0,1]` the total interval width at `c1` is
at most the total width at `c2`. -/
theorem findHPD_full_span_and_monotone {α : Type} [LinearOrderedField α]
    (d : List (PPoint α)) (c1 c2 : α) (hd : d ≠ [])
    (hnn : ∀ p ∈ d, 0 ≤ p.probability) (hpos : 0 < sumProb d)
    (hc0 : 0 < c1) (hc12 : c1 ≤ c2) (hc21 : c2 ≤ 1) :
    (∃ I1 IL, (findHPD d 1).head? = some I1 ∧ (findHPD d 1).getLast? = some IL ∧
      I1.min = jsMin ((d.filter (fun p => p.probability ≠ 0)).map (·.cal_BP)) ∧
      IL.max = jsMax ((d.filter (fun p => p.probability ≠ 0)).map (·.cal_BP))) ∧
    (∀ I ∈ findHPD d 1,
      jsMin ((d.filter (fun p => p.probability ≠ 0)).map (·.cal_BP)) ≤ I.min ∧
      I.max ≤ jsMax ((d.filter (fun p => p.probability ≠ 0)).map (·.cal_BP))) ∧
    totalWidth (findHPD d c1) ≤ totalWidth (findHPD d c2) := by
  have hE : d.isEmpty = false := by
    cases d with
    | nil => exact absurd rfl hd
    | cons a l => rfl
  have hincperm := includedPoints_conf_one d hnn hpos
  have hinc1ne : includedPoints d 1 ≠ [] := includedPoints_ne_nil d 1 hd
  rcases hSC : sortByCal (includedPoints d 1) with _ | ⟨p, rest⟩
  · have hnil : List.Perm (includedPoints d 1) ([] : List (PPoint α)) :=
      hSC ▸ (List.perm_insertionSort _ (includedPoints d 1)).symm
    exact absurd hnil.eq_nil hinc1ne
  · have hFH1 : findHPD d 1 = buildIntervals p p rest := by
      simp [findHPD, hE, hSC]
    have hsorted1 : List.Sorted (fun a b : PPoint α => a.cal_BP ≤ b.cal_BP) (p :: rest) :=
      hSC ▸ List.sorted_insertionSort _ (includedPoints d 1)
    have hpermcal : List.Perm ((p :: rest).map (·.cal_BP))
        ((d.filter (fun p => p.probability ≠ 0)).map (·.cal_BP)) := by
      rw [← hSC]
      exact ((List.perm_insertionSort _ (includedPoints d 1)).map
        (fun x : PPoint α => x.cal_BP)).trans (hincperm.map (fun x : PPoint α => x.cal_BP))
    have hmineq : p.cal_BP =
        jsMin ((d.filter (fun p => p.probability ≠ 0)).map (·.cal_BP)) := by
      rw [← jsMin_map_cal_sorted p rest hsorted1]
      exact jsMin_perm _ _ hpermcal
    have hmaxeq : ((p :: rest).getLast (List.cons_ne_nil p rest)).cal_BP =
        jsMax ((d.filter (fun p => p.probability ≠ 0)).map (·.cal_BP)) := by
      rw [← jsMax_map_cal_sorted p rest hsorted1]
      exact jsMax_perm _ _ hpermcal
    obtain ⟨⟨I1, hI1h, hI1min⟩, ⟨IL, hILl, hILmax⟩⟩ := buildIntervals_head_last rest p p
    refine ⟨⟨I1, IL, by rw [hFH1]; exact hI1h, by rw [hFH1]; exact hILl,
      by rw [hI1min, hmineq], by rw [hILmax, hmaxeq]⟩, ?_, ?_⟩
    · intro I hI
      rw [hFH1] at hI
      obtain ⟨hb1, hb2⟩ := buildIntervals_bounds rest p p (le_refl _) hsorted1 I hI
      exact ⟨hmineq ▸ hb1, hmaxeq ▸ hb2⟩
    · have hc2pos : 0 < c2 := lt_of_lt_of_le hc0 hc12
      have hc1le1 : c1 ≤ 1 := le_trans hc12 hc21
      have hv1 : ¬(c1 ≤ 0 ∨ 1 < c1) := not_or.mpr ⟨not_le.mpr hc0, not_lt.mpr hc1le1⟩
      have hv2 : ¬(c2 ≤ 0 ∨ 1 < c2) := not_or.mpr ⟨not_le.mpr hc2pos, not_lt.mpr hc21⟩
      have hIncEq1 : includedPoints d c1 =
          collectPoints (sumProb d * c1) 0 (sortByProbDesc d) := by
        simp [includedPoints, if_neg hv1, sumProb]
      have hIncEq2 : includedPoints d c2 =
          collectPoints (sumProb d * c2) 0 (sortByProbDesc d) := by
        simp [includedPoints, if_neg hv2, sumProb]
      have ht12 : sumProb d * c1 ≤ sumProb d * c2 :=
        mul_le_mul_of_nonneg_left hc12 (le_of_lt hpos)
      obtain ⟨E, hE2⟩ := collectPoints_mono (sumProb d * c1) (sumProb d * c2) ht12
        0 (sortByProbDesc d)
      rw [totalWidth_findHPD d c1 hd, totalWidth_findHPD d c2 hd, hIncEq1, hIncEq2, ← hE2]
      rw [List.map_append]
      exact widthW_sortQ_append _ _

/-- Witness for `findHPD_full_span_and_monotone` on the synthetic five-point
scenario with confidences 0.3 and 0.6. -/
theorem findHPD_full_span_and_monotone_witness :
    (d5 ≠ [] ∧ (∀ p ∈ d5, 0 ≤ p.probability) ∧ 0 < sumProb d5 ∧
      (0 : ℚ) < 3/10 ∧ (3/10 : ℚ) ≤ 3/5 ∧ (3/5 : ℚ) ≤ 1) ∧
    ((∃ I1 IL, (findHPD d5 1).head? = some I1 ∧ (findHPD d5 1).getLast? = some IL ∧
      I1.min = jsMin ((d5.filter (fun p => p.probability ≠ 0)).map (·.cal_BP)) ∧
      IL.max = jsMax ((d5.filter (fun p => p.probability ≠ 0)).map (·.cal_BP))) ∧
    (∀ I ∈ findHPD d5 1,
      jsMin ((d5.filter (fun p => p.probability ≠ 0)).map (·.cal_BP)) ≤ I.min ∧
      I.max ≤ jsMax ((d5.filter (fun p => p.probability ≠ 0)).map (·.cal_BP))) ∧
    totalWidth (findHPD d5 (3/10)) ≤ totalWidth (findHPD d5 (3/5))) :=
  ⟨⟨by simp [d5], by norm_num [d5], by norm_num [d5, sumProb], by norm_num, by norm_num,
    by norm_num⟩,
   findHPD_full_span_and_monotone d5 (3/10) (3/5) (by simp [d5]) (by norm_num [d5])
     (by norm_num [d5, sumProb]) (by norm_num) (by norm_num) (by norm_num)⟩

/-- One unfolding of `gcvaLoop` when the loop continues. -/
theorem gcvaLoop_step (curveData : List CurvePoint) (calBP : ℚ) (low high : ℤ)
    (h : low ≤ high) :
    gcvaLoop curveData calBP low high =
      (if (curveData.getD ((low + high) / 2).toNat defaultPoint).cal_BP < calBP then
        gcvaLoop curveData calBP ((low + high) / 2 + 1) high
      else if calBP < (curveData.getD ((low + high) / 2).toNat defaultPoint).cal_BP then
        gcvaLoop curveData calBP low ((low + high) / 2 - 1)
      else Sum.inl (curveData.getD ((low + high) / 2).toNat defaultPoint)) := by
  rw [gcvaLoop]
  simp only [if_pos h]

/-- One unfolding of `gcvaLoop` when the loop exits. -/
theorem gcvaLoop_exit (curveData : List CurvePoint) (calBP : ℚ) (low high : ℤ)
    (h : ¬low ≤ high) :
    gcvaLoop curveData calBP low high = Sum.inr (low, high) := by
  rw [gcvaLoop]
  simp only [if_neg h]

/-- `getD` agrees with indexing when the index is in range. -/
theorem getD_eq_get (l : List CurvePoint) (i : ℕ) (h : i < l.length) :
    l.getD i defaultPoint = l[i] := by
  simp [List.getD_eq_getElem?_getD, List.getElem?_eq_getElem h]

/-- `getD 0` of a non-empty list is its head. -/
theorem getD_zero_head (l : List CurvePoint) (h : l ≠ []) :
    l.getD 0 defaultPoint = l.head h := by
  cases l with
  | nil => exact absurd rfl h
  | cons a t => rfl

/-- `getD (length − 1)` of a non-empty list is its last element. -/
theorem getD_last (l : List CurvePoint) (h : l ≠ []) :
    l.getD (l.length - 1) defaultPoint = l.getLast h := by
  rw [List.getLast_eq_getElem]
  exact getD_eq_get l (l.length - 1) (Nat.sub_lt (List.length_pos.mpr h) one_pos)

/-- Entries of a strictly cal-sorted list increase with the index. -/
theorem strict_cal_getD_lt (curve : List CurvePoint)
    (hsort : List.Pairwise (fun a b : CurvePoint => a.cal_BP < b.cal_BP) curve)
    (i j : ℕ) (hi : i < curve.length) (hj : j < curve.length) (hij : i < j) :
    (curve.getD i defaultPoint).cal_BP < (curve.getD j defaultPoint).cal_BP := by
  rw [getD_eq_get curve i hi, getD_eq_get curve j hj]
  exact List.pairwise_iff_getElem.mp hsort i j hi hj hij

/-- In a strictly cal-sorted list the head's year is minimal. -/
theorem strict_head_le (curve : List CurvePoint) (h : curve ≠ [])
    (hsort : List.Pairwise (fun a b : CurvePoint => a.cal_BP < b.cal_BP) curve) :
    ∀ x ∈ curve, (curve.head h).cal_BP ≤ x.cal_BP := by
  cases curve with
  | nil => exact absurd rfl h
  | cons a t =>
      intro x hx
      rcases List.mem_cons.mp hx with hx | hx
      · subst hx
        exact le_refl _
      · exact le_of_lt ((List.pairwise_cons.mp hsort).1 x hx)

/-- In a strictly cal-sorted list the last element's year is maximal. -/
theorem strict_le_getLast (curve : List CurvePoint) (h : curve ≠ [])
    (hsort : List.Pairwise (fun a b : CurvePoint => a.cal_BP < b.cal_BP) curve) :
    ∀ x ∈ curve, x.cal_BP ≤ (curve.getLast h).cal_BP := by
  intro x hx
  obtain ⟨i, hi, hix⟩ := List.mem_iff_getElem.mp hx
  rw [List.getLast_eq_getElem]
  rcases Nat.lt_or_ge i (curve.length - 1) with hlt | hge
  · have := List.pairwise_iff_getElem.mp hsort i (curve.length - 1) hi
      (Nat.sub_lt (List.length_pos.mpr h) one_pos) hlt
    rw [← hix]
    exact le_of_lt this
  · have hieq : i = curve.length - 1 := by omega
    subst hieq
    rw [← hix]

/-- Strictly cal-sorted lists have pairwise distinct years, so a year
determines the point. -/
theorem strict_cal_inj (curve : List CurvePoint)
    (hsort : List.Pairwise (fun a b : CurvePoint => a.cal_BP < b.cal_BP) curve) :
    ∀ p ∈ curve, ∀ q ∈ curve, p.cal_BP = q.cal_BP → p = q := by
  intro p hp q hq heq
  obtain ⟨i, hi, hip⟩ := List.mem_iff_getElem.mp hp
  obtain ⟨j, hj, hjq⟩ := List.mem_iff_getElem.mp hq
  rcases Nat.lt_trichotomy i j with h | h | h
  · exfalso
    have := List.pairwise_iff_getElem.mp hsort i j hi hj h
    rw [hip, hjq, heq] at this
    exact lt_irrefl _ this
  · subst h
    rw [← hip, ← hjq]
  · exfalso
    have := List.pairwise_iff_getElem.mp hsort j i hj hi h
    rw [hip, hjq, heq] at this
    exact lt_irrefl _ this

/-- Correctness of the `getCurveValueAt` binary-search loop: it either finds
an exact match or exits with `low = high + 1` bracketing the target year. -/
theorem gcvaLoop_spec (curve : List CurvePoint) (calBP : ℚ)
    (hsort : List.Pairwise (fun a b : CurvePoint => a.cal_BP < b.cal_BP) curve) :
    ∀ (n : ℕ) (low high : ℤ), (high + 1 - low).toNat = n →
      0 ≤ low → high < (curve.length : ℤ) → low ≤ high + 1 →
      (∀ i : ℕ, i < curve.length → (i : ℤ) < low →
        (curve.getD i defaultPoint).cal_BP < calBP) →
      (∀ i : ℕ, i < curve.length → high < (i : ℤ) →
        calBP < (curve.getD i defaultPoint).cal_BP) →
      (∃ p, gcvaLoop curve calBP low high = Sum.inl p ∧ p ∈ curve ∧ p.cal_BP = calBP) ∨
      (∃ hfin : ℤ, gcvaLoop curve calBP low high = Sum.inr (hfin + 1, hfin) ∧
        (∀ i : ℕ, i < curve.length → (i : ℤ) ≤ hfin →
          (curve.getD i defaultPoint).cal_BP < calBP) ∧
        (∀ i : ℕ, i < curve.length → hfin < (i : ℤ) →
          calBP < (curve.getD i defaultPoint).cal_BP)) := by
  intro n
  induction n using Nat.strong_induction_on with
  | _ n ih =>
      intro low high hn h0 hlen hlh hA hB
      by_cases hcase : low ≤ high
      · have hm1 : low ≤ (low + high) / 2 := by omega
        have hm2 : (low + high) / 2 ≤ high := by omega
        have hmnat : ((low + high) / 2).toNat < curve.length := by omega
        rw [gcvaLoop_step curve calBP low high hcase]
        by_cases h1 : (curve.getD ((low + high) / 2).toNat defaultPoint).cal_BP < calBP
        · rw [if_pos h1]
          refine ih ((high + 1 - ((low + high) / 2 + 1)).toNat) (by omega)
            ((low + high) / 2 + 1) high rfl (by omega) hlen (by omega) ?_ hB
          intro i hi hilow
          by_cases hieq : (i : ℤ) = (low + high) / 2
          · have hieq2 : i = ((low + high) / 2).toNat := by omega
            rw [hieq2]
            exact h1
          · have hilt : i < ((low + high) / 2).toNat := by omega
            exact lt_trans (strict_cal_getD_lt curve hsort i _ hi hmnat hilt) h1
        · rw [if_neg h1]
          by_cases h2 : calBP < (curve.getD ((low + high) / 2).toNat defaultPoint).cal_BP
          · rw [if_pos h2]
            refine ih ((((low + high) / 2 - 1) + 1 - low).toNat) (by omega)
              low ((low + high) / 2 - 1) rfl h0 (by omega) (by omega) hA ?_
            intro i hi hihigh
            by_cases hieq : (i : ℤ) = (low + high) / 2
            · have hieq2 : i = ((low + high) / 2).toNat := by omega
              rw [hieq2]
              exact h2
            · have higt : ((low + high) / 2).toNat < i := by omega
              exact lt_trans h2 (strict_cal_getD_lt curve hsort _ i hmnat hi higt)
          · rw [if_neg h2]
            left
            refine ⟨curve.getD ((low + high) / 2).toNat defaultPoint, rfl, ?_,
              le_antisymm (not_lt.mp h2) (not_lt.mp h1)⟩
            rw [getD_eq_get curve _ hmnat]
            exact List.getElem_mem hmnat
      · right
        have hexit : low = high + 1 := by omega
        refine ⟨high, ?_, ?_, hB⟩
        · rw [gcvaLoop_exit curve calBP low high hcase, hexit]
        · intro i hi hile
          exact hA i hi (by omega)

/-- C7: for a non-empty strictly ascending curve, `getCurveValueAt` returns
the first point's values unchanged below (or at) the first `cal_BP`, the last
point's values unchanged above (or at) the last `cal_BP`, the matching
point's values verbatim on an exact match, and otherwise the linear
interpolation between the two adjacent curve points bracketing the target. -/
theorem getCurveValueAt_spec (curve : List CurvePoint) (calBP : ℚ) (hne : curve ≠ [])
    (hsort : List.Pairwise (fun a b : CurvePoint => a.cal_BP < b.cal_BP) curve) :
    (calBP ≤ (curve.head hne).cal_BP → getCurveValueAt calBP curve = (curve.head hne).val) ∧
    ((curve.getLast hne).cal_BP ≤ calBP →
      getCurveValueAt calBP curve = (curve.getLast hne).val) ∧
    (∀ p ∈ curve, p.cal_BP = calBP → getCurveValueAt calBP curve = p.val) ∧
    ((curve.head hne).cal_BP < calBP → calBP < (curve.getLast hne).cal_BP →
      (∀ p ∈ curve, p.cal_BP ≠ calBP) →
      ∃ (i j : ℕ) (hi : i < curve.length) (hj : j < curve.length), j = i + 1 ∧
        (curve.get ⟨i, hi⟩).cal_BP < calBP ∧ calBP < (curve.get ⟨j, hj⟩).cal_BP ∧
        getCurveValueAt calBP curve =
          interpolate calBP (curve.get ⟨i, hi⟩) (curve.get ⟨j, hj⟩)) := by
  have hhead := getD_zero_head curve hne
  have hlastD := getD_last curve hne
  have hlen0 : 0 < curve.length := List.length_pos.mpr hne
  refine ⟨?_, ?_, ?_, ?_⟩
  · intro h
    rw [getCurveValueAt, hhead, if_pos h]
  · intro h
    by_cases hf : calBP ≤ (curve.head hne).cal_BP
    · have h1 : (curve.head hne).cal_BP ≤ (curve.getLast hne).cal_BP :=
        strict_le_getLast curve hne hsort _ (List.head_mem hne)
      have heq : (curve.head hne).cal_BP = (curve.getLast hne).cal_BP :=
        le_antisymm h1 (le_trans h hf)
      have heq2 : curve.head hne = curve.getLast hne :=
        strict_cal_inj curve hsort _ (List.head_mem hne) _ (List.getLast_mem hne) heq
      rw [getCurveValueAt, hhead, if_pos hf, heq2]
    · rw [getCurveValueAt, hhead, if_neg hf, hlastD, if_pos h]
  · intro p hp hpcal
    by_cases hf : calBP ≤ (curve.head hne).cal_BP
    · have hple : (curve.head hne).cal_BP ≤ p.cal_BP := strict_head_le curve hne hsort p hp
      have heq : p.cal_BP = (curve.head hne).cal_BP :=
        le_antisymm (by rw [hpcal]; exact hf) hple
      have hpe : p = curve.head hne :=
        strict_cal_inj curve hsort p hp _ (List.head_mem hne) heq
      rw [getCurveValueAt, hhead, if_pos hf, hpe]
    · by_cases hl : (curve.getLast hne).cal_BP ≤ calBP
      · have hple : p.cal_BP ≤ (curve.getLast hne).cal_BP := strict_le_getLast curve hne hsort p hp
        have heq : p.cal_BP = (curve.getLast hne).cal_BP :=
          le_antisymm hple (by rw [hpcal]; exact hl)
        have hpe : p = curve.getLast hne :=
          strict_cal_inj curve hsort p hp _ (List.getLast_mem hne) heq
        rw [getCurveValueAt, hhead, if_neg hf, hlastD, if_pos hl, hpe]
      · have hspec := gcvaLoop_spec curve calBP hsort
          ((curve.length : ℤ) - 1 + 1 - 0).toNat 0 ((curve.length : ℤ) - 1) rfl
          (le_refl 0) (by omega) (by omega)
          (fun i hi hi0 => absurd hi0 (by omega))
          (fun i hi hig => absurd hig (by omega))
        rcases hspec with ⟨q, hq, hqmem, hqcal⟩ | ⟨hfin, hloop, hAf, hBf⟩
        · have hpq : p = q := strict_cal_inj curve hsort p hp q hqmem (by rw [hpcal, hqcal])
          rw [getCurveValueAt, hhead, if_neg hf, hlastD, if_neg hl, hq, hpq]
        · exfalso
          obtain ⟨ip, hip, hipe⟩ := List.mem_iff_getElem.mp hp
          by_cases hcase2 : (ip : ℤ) ≤ hfin
          · have hcon := hAf ip hip hcase2
            rw [getD_eq_get curve ip hip, hipe, hpcal] at hcon
            exact lt_irrefl _ hcon
          · have hcon := hBf ip hip (by omega)
            rw [getD_eq_get curve ip hip, hipe, hpcal] at hcon
            exact lt_irrefl _ hcon
  · intro hh hl hno
    have hf : ¬calBP ≤ (curve.head hne).cal_BP := not_le.mpr hh
    have hl2 : ¬(curve.getLast hne).cal_BP ≤ calBP := not_le.mpr hl
    have hspec := gcvaLoop_spec curve calBP hsort
      ((curve.length : ℤ) - 1 + 1 - 0).toNat 0 ((curve.length : ℤ) - 1) rfl
      (le_refl 0) (by omega) (by omega)
      (fun i hi hi0 => absurd hi0 (by omega))
      (fun i hi hig => absurd hig (by omega))
    rcases hspec with ⟨q, _, hqmem, hqcal⟩ | ⟨hfin, hloop, hAf, hBf⟩
    · exact absurd hqcal (hno q hqmem)
    · have hfin0 : 0 ≤ hfin := by
        by_contra hneg
        push_neg at hneg
        have hcon := hBf 0 hlen0 (by omega)
        rw [hhead] at hcon
        exact absurd hh (not_lt.mpr (le_of_lt hcon))
      have hfinlt : hfin + 1 < (curve.length : ℤ) := by
        by_contra hge
        push_neg at hge
        have hcon := hAf (curve.length - 1) (Nat.sub_lt hlen0 one_pos) (by omega)
        rw [hlastD] at hcon
        exact absurd hl (not_lt.mpr (le_of_lt hcon))
      have h1n : hfin.toNat < curve.length := by omega
      have h2n : hfin.toNat + 1 < curve.length := by omega
      refine ⟨hfin.toNat, hfin.toNat + 1, h1n, h2n, rfl, ?_, ?_, ?_⟩
      · have hcon := hAf hfin.toNat h1n (by omega)
        rw [getD_eq_get curve _ h1n] at hcon
        simpa [List.get_eq_getElem] using hcon
      · have hcon := hBf (hfin.toNat + 1) h2n (by omega)
        rw [getD_eq_get curve _ h2n] at hcon
        simpa [List.get_eq_getElem] using hcon
      · rw [getCurveValueAt, hhead, if_neg hf, hlastD, if_neg hl2, hloop]
        have e1 : (hfin + 1 : ℤ).toNat = hfin.toNat + 1 := by omega
        simp only [e1, getD_eq_get curve hfin.toNat h1n,
          getD_eq_get curve (hfin.toNat + 1) h2n, List.get_eq_getElem]

/-- Witness for `getCurveValueAt_spec` on a concrete three-point curve. -/
theorem getCurveValueAt_spec_witness :
    (curve3 ≠ [] ∧
      List.Pairwise (fun a b : CurvePoint => a.cal_BP < b.cal_BP) curve3) ∧
    ((5 : ℚ) ≤ (curve3.head (by simp [curve3])).cal_BP →
      getCurveValueAt 5 curve3 = (curve3.head (by simp [curve3])).val) ∧
    ((curve3.getLast (by simp [curve3])).cal_BP ≤ (5 : ℚ) →
      getCurveValueAt 5 curve3 = (curve3.getLast (by simp [curve3])).val) ∧
    (∀ p ∈ curve3, p.cal_BP = (5 : ℚ) → getCurveValueAt 5 curve3 = p.val) ∧
    ((curve3.head (by simp [curve3])).cal_BP < (5 : ℚ) →
      (5 : ℚ) < (curve3.getLast (by simp [curve3])).cal_BP →
      (∀ p ∈ curve3, p.cal_BP ≠ (5 : ℚ)) →
      ∃ (i j : ℕ) (hi : i < curve3.length) (hj : j < curve3.length), j = i + 1 ∧
        (curve3.get ⟨i, hi⟩).cal_BP < 5 ∧ (5 : ℚ) < (curve3.get ⟨j, hj⟩).cal_BP ∧
        getCurveValueAt 5 curve3 =
          interpolate 5 (curve3.get ⟨i, hi⟩) (curve3.get ⟨j, hj⟩)) :=
  ⟨⟨by simp [curve3], by norm_num [curve3, List.pairwise_cons]⟩,
   getCurveValueAt_spec curve3 5 (by simp [curve3])
     (by norm_num [curve3, List.pairwise_cons])⟩

/-- One unfolding of `minIdxLoop` when the loop continues. -/
theorem minIdxLoop_step (l : List CurvePoint) (m : ℚ) (low high minIndex : ℤ)
    (h : low ≤ high) :
    minIdxLoop l m low high minIndex =
      (if (l.getD ((low + high) / 2).toNat defaultPoint).c14_BP < m then
        minIdxLoop l m ((low + high) / 2 + 1) high minIndex
      else
        minIdxLoop l m low ((low + high) / 2 - 1) ((low + high) / 2)) := by
  rw [minIdxLoop]
  simp only [if_pos h]

/-- One unfolding of `minIdxLoop` when the loop exits. -/
theorem minIdxLoop_exit (l : List CurvePoint) (m : ℚ) (low high minIndex : ℤ)
    (h : ¬low ≤ high) : minIdxLoop l m low high minIndex = minIndex := by
  rw [minIdxLoop]
  simp only [if_neg h]

/-- One unfolding of `maxIdxLoop` when the loop continues. -/
theorem maxIdxLoop_step (l : List CurvePoint) (m : ℚ) (low high maxIndex : ℤ)
    (h : low ≤ high) :
    maxIdxLoop l m low high maxIndex =
      (if (l.getD ((low + high) / 2).toNat defaultPoint).c14_BP ≤ m then
        maxIdxLoop l m ((low + high) / 2 + 1) high ((low + high) / 2)
      else
        maxIdxLoop l m low ((low + high) / 2 - 1) maxIndex) := by
  rw [maxIdxLoop]
  simp only [if_pos h]

/-- One unfolding of `maxIdxLoop` when the loop exits. -/
theorem maxIdxLoop_exit (l : List CurvePoint) (m : ℚ) (low high maxIndex : ℤ)
    (h : ¬low ≤ high) : maxIdxLoop l m low high maxIndex = maxIndex := by
  rw [maxIdxLoop]
  simp only [if_neg h]

/-- Entries of a c14-sorted list are monotone in the index. -/
theorem sorted_c14_getD_le (L : List CurvePoint)
    (hsort : List.Pairwise (fun a b : CurvePoint => a.c14_BP ≤ b.c14_BP) L)
    (i j : ℕ) (hi : i < L.length) (hj : j < L.length) (hij : i ≤ j) :
    (L.getD i defaultPoint).c14_BP ≤ (L.getD j defaultPoint).c14_BP := by
  rcases Nat.eq_or_lt_of_le hij with h | h
  · subst h; exact le_refl _
  · rw [getD_eq_get L i hi, getD_eq_get L j hj]
    exact List.pairwise_iff_getElem.mp hsort i j hi hj h

/-- Correctness of the first binary search of `findCalendarRangeByC14BP`:
given some entry at least `m`, it returns the least index whose `c14_BP` is
at least `m`. -/
theorem minIdxLoop_spec (L : List CurvePoint) (m : ℚ)
    (hsort : List.Pairwise (fun a b : CurvePoint => a.c14_BP ≤ b.c14_BP) L)
    (hex : ∃ k : ℕ, k < L.length ∧ m ≤ (L.getD k defaultPoint).c14_BP) :
    ∀ (n : ℕ) (low high minIndex : ℤ), (high + 1 - low).toNat = n →
      0 ≤ low → high < (L.length : ℤ) → low ≤ high + 1 →
      (∀ i : ℕ, i < L.length → (i : ℤ) < low → (L.getD i defaultPoint).c14_BP < m) →
      (∀ i : ℕ, i < L.length → high < (i : ℤ) → m ≤ (L.getD i defaultPoint).c14_BP) →
      (high + 1 < (L.length : ℤ) → minIndex = high + 1) →
      0 ≤ minIdxLoop L m low high minIndex ∧
      minIdxLoop L m low high minIndex < (L.length : ℤ) ∧
      m ≤ (L.getD (minIdxLoop L m low high minIndex).toNat defaultPoint).c14_BP ∧
      (∀ i : ℕ, i < L.length → (i : ℤ) < minIdxLoop L m low high minIndex →
        (L.getD i defaultPoint).c14_BP < m) := by
  intro n
  induction n using Nat.strong_induction_on with
  | _ n ih =>
      intro low high minIndex hn h0 hlen hlh hA hB hC
      by_cases hcase : low ≤ high
      · have hm1 : low ≤ (low + high) / 2 := by omega
        have hm2 : (low + high) / 2 ≤ high := by omega
        have hmnat : ((low + high) / 2).toNat < L.length := by omega
        rw [minIdxLoop_step L m low high minIndex hcase]
        by_cases h1 : (L.getD ((low + high) / 2).toNat defaultPoint).c14_BP < m
        · rw [if_pos h1]
          refine ih ((high + 1 - ((low + high) / 2 + 1)).toNat) (by omega)
            ((low + high) / 2 + 1) high minIndex rfl (by omega) hlen (by omega) ?_ hB hC
          intro i hi hilow
          rcases Nat.lt_or_ge i (((low + high) / 2).toNat) with hlt | hge
          · exact lt_of_le_of_lt (sorted_c14_getD_le L hsort i _ hi hmnat (le_of_lt hlt)) h1
          · have hieq : i = ((low + high) / 2).toNat := by omega
            rw [hieq]
            exact h1
        · rw [if_neg h1]
          refine ih ((((low + high) / 2 - 1) + 1 - low).toNat) (by omega)
            low ((low + high) / 2 - 1) ((low + high) / 2) rfl h0 (by omega) (by omega)
            hA ?_ ?_
          · intro i hi hihigh
            have hge : ((low + high) / 2).toNat ≤ i := by omega
            exact le_trans (not_lt.mp h1) (sorted_c14_getD_le L hsort _ i hmnat hi hge)
          · intro _
            omega
      · have hexit : low = high + 1 := by omega
        rw [minIdxLoop_exit L m low high minIndex hcase]
        by_cases hfit : high + 1 < (L.length : ℤ)
        · have hmi : minIndex = high + 1 := hC hfit
          subst hmi
          refine ⟨by omega, by omega, ?_, ?_⟩
          · exact hB (high + 1).toNat (by omega) (by omega)
          · intro i hi hilt
            exact hA i hi (by omega)
        · exfalso
          obtain ⟨k, hk, hmk⟩ := hex
          exact absurd hmk (not_le.mpr (hA k hk (by omega)))

/-- Correctness of the second binary search of `findCalendarRangeByC14BP`:
given some entry at most `m`, it returns the greatest index whose `c14_BP`
is at most `m`. -/
theorem maxIdxLoop_spec (L : List CurvePoint) (m : ℚ)
    (hsort : List.Pairwise (fun a b : CurvePoint => a.c14_BP ≤ b.c14_BP) L)
    (hex : ∃ k : ℕ, k < L.length ∧ (L.getD k defaultPoint).c14_BP ≤ m) :
    ∀ (n : ℕ) (low high maxIndex : ℤ), (high + 1 - low).toNat = n →
      0 ≤ low → high < (L.length : ℤ) → low ≤ high + 1 →
      (∀ i : ℕ, i < L.length → (i : ℤ) < low → (L.getD i defaultPoint).c14_BP ≤ m) →
      (∀ i : ℕ, i < L.length → high < (i : ℤ) → m < (L.getD i defaultPoint).c14_BP) →
      (0 < low → maxIndex = low - 1) →
      0 ≤ maxIdxLoop L m low high maxIndex ∧
      maxIdxLoop L m low high maxIndex < (L.length : ℤ) ∧
      (L.getD (maxIdxLoop L m low high maxIndex).toNat defaultPoint).c14_BP ≤ m ∧
      (∀ i : ℕ, i < L.length → maxIdxLoop L m low high maxIndex < (i : ℤ) →
        m < (L.getD i defaultPoint).c14_BP) := by
  intro n
  induction n using Nat.strong_induction_on with
  | _ n ih =>
      intro low high maxIndex hn h0 hlen hlh hA hB hC
      by_cases hcase : low ≤ high
      · have hm1 : low ≤ (low + high) / 2 := by omega
        have hm2 : (low + high) / 2 ≤ high := by omega
        have hmnat : ((low + high) / 2).toNat < L.length := by omega
        rw [maxIdxLoop_step L m low high maxIndex hcase]
        by_cases h1 : (L.getD ((low + high) / 2).toNat defaultPoint).c14_BP ≤ m
        · rw [if_pos h1]
          refine ih ((high + 1 - ((low + high) / 2 + 1)).toNat) (by omega)
            ((low + high) / 2 + 1) high ((low + high) / 2) rfl (by omega) hlen (by omega)
            ?_ hB ?_
          · intro i hi hilow
            rcases Nat.lt_or_ge i (((low + high) / 2).toNat) with hlt | hge
            · exact le_trans (sorted_c14_getD_le L hsort i _ hi hmnat (le_of_lt hlt)) h1
            · have hieq : i = ((low + high) / 2).toNat := by omega
              rw [hieq]
              exact h1
          · intro _
            omega
        · rw [if_neg h1]
          refine ih ((((low + high) / 2 - 1) + 1 - low).toNat) (by omega)
            low ((low + high) / 2 - 1) maxIndex rfl h0 (by omega) (by omega) hA ?_ hC
          intro i hi hihigh
          have hge : ((low + high) / 2).toNat ≤ i := by omega
          exact lt_of_lt_of_le (not_le.mp h1) (sorted_c14_getD_le L hsort _ i hmnat hi hge)
      · have hexit : low = high + 1 := by omega
        rw [maxIdxLoop_exit L m low high maxIndex hcase]
        by_cases hfit : 0 < low
        · have hmi : maxIndex = low - 1 := hC hfit
          subst hmi
          refine ⟨by omega, by omega, ?_, ?_⟩
          · exact hA (low - 1).toNat (by omega) (by omega)
          · intro i hi hilt
            exact hB i hi (by omega)
        · exfalso
          obtain ⟨k, hk, hmk⟩ := hex
          exact absurd hmk (not_le.mpr (hB k hk (by omega)))

/-- Unfolding of the band membership test. -/
theorem inBand_iff (c14Age uncertainty : ℚ) (p : CurvePoint) :
    inBand c14Age uncertainty p = true ↔
      (c14Age - 5 * uncertainty ≤ p.c14_BP ∧ p.c14_BP ≤ c14Age + 5 * uncertainty) := by
  simp [inBand]

/-- C6 (part 1): with at least one curve point in the ±5σ band,
`findCalendarRangeByC14BP` returns exactly the minimum and maximum `cal_BP`
of the in-band points. -/
theorem findCalendarRangeByC14BP_spec (curveData : List CurvePoint)
    (c14Age uncertainty : ℚ)
    (hband : bandPoints curveData c14Age uncertainty ≠ []) :
    findCalendarRangeByC14BP curveData c14Age uncertainty =
      some (jsMin ((bandPoints curveData c14Age uncertainty).map (·.cal_BP)),
            jsMax ((bandPoints curveData c14Age uncertainty).map (·.cal_BP))) := by
  simp only [findCalendarRangeByC14BP]
  set L : List CurvePoint := sortByC14 curveData with hL
  set r1 : ℤ := minIdxLoop L (c14Age - 5 * uncertainty) 0 ((L.length : ℤ) - 1) 0 with hr1
  set r2 : ℤ := maxIdxLoop L (c14Age + 5 * uncertainty) 0 ((L.length : ℤ) - 1)
    ((L.length : ℤ) - 1) with hr2
  set kn : ℕ := (r2 + 1 - r1).toNat with hkn
  set B : List CurvePoint := (L.drop r1.toNat).take kn with hBdef
  have hperm : List.Perm L curveData := by
    rw [hL]
    exact List.perm_insertionSort _ _
  have hsort : List.Pairwise (fun a b : CurvePoint => a.c14_BP ≤ b.c14_BP) L := by
    rw [hL]
    exact List.sorted_insertionSort _ curveData
  have hbandperm : List.Perm (L.filter (inBand c14Age uncertainty))
      (bandPoints curveData c14Age uncertainty) := by
    simp only [bandPoints]
    exact hperm.filter _
  have hbandLne : L.filter (inBand c14Age uncertainty) ≠ [] := by
    intro h
    rw [h] at hbandperm
    exact hband hbandperm.symm.eq_nil
  obtain ⟨x0, hx0mem, hx0band⟩ : ∃ x ∈ L, inBand c14Age uncertainty x = true := by
    rcases hfe : L.filter (inBand c14Age uncertainty) with _ | ⟨y, ys⟩
    · exact absurd hfe hbandLne
    · have hy : y ∈ L.filter (inBand c14Age uncertainty) := by
        rw [hfe]
        simp
      exact ⟨y, List.mem_of_mem_filter hy, List.of_mem_filter hy⟩
  obtain ⟨k0, hk0, hk0e⟩ := List.mem_iff_getElem.mp hx0mem
  have hk0band : inBand c14Age uncertainty (L.getD k0 defaultPoint) = true := by
    rw [getD_eq_get L k0 hk0, hk0e]
    exact hx0band
  have hex_min : ∃ k : ℕ, k < L.length ∧
      c14Age - 5 * uncertainty ≤ (L.getD k defaultPoint).c14_BP :=
    ⟨k0, hk0, ((inBand_iff _ _ _).mp hk0band).1⟩
  have hex_max : ∃ k : ℕ, k < L.length ∧
      (L.getD k defaultPoint).c14_BP ≤ c14Age + 5 * uncertainty :=
    ⟨k0, hk0, ((inBand_iff _ _ _).mp hk0band).2⟩
  obtain ⟨hr1a, hr1b, hr1c, hr1d⟩ := minIdxLoop_spec L (c14Age - 5 * uncertainty) hsort
    hex_min (((L.length : ℤ) - 1) + 1 - 0).toNat 0 ((L.length : ℤ) - 1) 0 rfl
    (le_refl 0) (by omega) (by omega)
    (fun i hi hi0 => absurd hi0 (by omega))
    (fun i hi hig => absurd hig (by omega))
    (fun hlt => absurd hlt (by omega))
  obtain ⟨hr2a, hr2b, hr2c, hr2d⟩ := maxIdxLoop_spec L (c14Age + 5 * uncertainty) hsort
    hex_max (((L.length : ℤ) - 1) + 1 - 0).toNat 0 ((L.length : ℤ) - 1)
    ((L.length : ℤ) - 1) rfl (le_refl 0) (by omega) (by omega)
    (fun i hi hi0 => absurd hi0 (by omega))
    (fun i hi hig => absurd hig (by omega))
    (fun hlt => absurd hlt (lt_irrefl 0))
  have hchar : ∀ i : ℕ, i < L.length →
      (inBand c14Age uncertainty (L.getD i defaultPoint) = true ↔
        (r1 ≤ (i : ℤ) ∧ (i : ℤ) ≤ r2)) := by
    intro i hi
    rw [inBand_iff]
    constructor
    · rintro ⟨hlo, hhi⟩
      constructor
      · by_contra hcon
        push_neg at hcon
        exact absurd hlo (not_le.mpr (hr1d i hi hcon))
      · by_contra hcon
        push_neg at hcon
        exact absurd hhi (not_le.mpr (hr2d i hi hcon))
    · rintro ⟨h1, h2⟩
      constructor
      · exact le_trans hr1c (sorted_c14_getD_le L hsort r1.toNat i (by omega) hi (by omega))
      · exact le_trans (sorted_c14_getD_le L hsort i r2.toNat hi (by omega) (by omega)) hr2c
  have hr12 : r1 ≤ r2 := by
    obtain ⟨ha, hb⟩ := (hchar k0 hk0).mp hk0band
    omega
  have hfA : (L.take r1.toNat).filter (inBand c14Age uncertainty) = [] := by
    refine List.filter_eq_nil_iff.mpr ?_
    intro a ha hpred
    obtain ⟨i, hi, hie⟩ := List.mem_iff_getElem.mp ha
    have hi2 : i < r1.toNat ∧ i < L.length := by
      simp only [List.length_take, lt_min_iff] at hi
      exact hi
    rw [List.getElem_take] at hie
    have : inBand c14Age uncertainty (L.getD i defaultPoint) = true := by
      rw [getD_eq_get L i hi2.2, hie]
      exact hpred
    obtain ⟨hc1, _⟩ := (hchar i hi2.2).mp this
    omega
  have hfB : B.filter (inBand c14Age uncertainty) = B := by
    refine List.filter_eq_self.mpr ?_
    intro a ha
    rw [hBdef] at ha
    obtain ⟨i, hi, hie⟩ := List.mem_iff_getElem.mp ha
    have hi2 : i < kn ∧ i < L.length - r1.toNat := by
      simp only [List.length_take, List.length_drop, lt_min_iff] at hi
      exact hi
    have hidx : r1.toNat + i < L.length := by omega
    rw [List.getElem_take, List.getElem_drop] at hie
    have hin : inBand c14Age uncertainty (L.getD (r1.toNat + i) defaultPoint) = true := by
      refine (hchar (r1.toNat + i) hidx).mpr ?_
      constructor <;> omega
    rw [getD_eq_get L _ hidx, hie] at hin
    exact hin
  have hfC : ((L.drop r1.toNat).drop kn).filter (inBand c14Age uncertainty) = [] := by
    rw [List.drop_drop]
    refine List.filter_eq_nil_iff.mpr ?_
    intro a ha hpred
    obtain ⟨i, hi, hie⟩ := List.mem_iff_getElem.mp ha
    have hi2 : r1.toNat + kn + i < L.length := by
      simp only [List.length_drop] at hi
      omega
    rw [List.getElem_drop] at hie
    have : inBand c14Age uncertainty (L.getD (r1.toNat + kn + i) defaultPoint) = true := by
      rw [getD_eq_get L _ hi2, hie]
      exact hpred
    obtain ⟨_, hc2⟩ := (hchar _ hi2).mp this
    omega
  have hLsplit : L = L.take r1.toNat ++ (B ++ (L.drop r1.toNat).drop kn) := by
    have h1 : B ++ (L.drop r1.toNat).drop kn = L.drop r1.toNat := by
      rw [hBdef]
      exact List.take_append_drop kn (L.drop r1.toNat)
    rw [h1, List.take_append_drop]
  have hslice : L.filter (inBand c14Age uncertainty) = B := by
    have h3 : (L.take r1.toNat ++ (B ++ (L.drop r1.toNat).drop kn)).filter
        (inBand c14Age uncertainty) = B := by
      rw [List.filter_append, List.filter_append, hfA, hfB, hfC,
        List.append_nil, List.nil_append]
    conv_lhs => rw [hLsplit]
    exact h3
  have hBne : B ≠ [] := by
    rw [← hslice]
    exact hbandLne
  have hBperm : List.Perm (B.map (·.cal_BP))
      ((bandPoints curveData c14Age uncertainty).map (·.cal_BP)) := by
    rw [← hslice]
    exact hbandperm.map _
  have hminEq : jsMin (B.map (·.cal_BP)) =
      jsMin ((bandPoints curveData c14Age uncertainty).map (·.cal_BP)) :=
    jsMin_perm _ _ hBperm
  have hmaxEq : jsMax (B.map (·.cal_BP)) =
      jsMax ((bandPoints curveData c14Age uncertainty).map (·.cal_BP)) :=
    jsMax_perm _ _ hBperm
  rw [← hminEq, ← hmaxEq]
  rcases hBc : B with _ | ⟨b0, bs⟩
  · exact absurd hBc hBne
  · simp only [List.map_cons]

/-- C6: in `c14_bp` mode the evaluated calendar range comes from the min and
max `cal_BP` of the curve points (after re-sorting by `c14_BP`) whose
`c14_BP` lies in the ±5σ band, padded by 500 on each side with the lower
bound clamped at 0 and no upper clamp; `full_curve` mode uses the curve's
full extent and `fixed_range` mode uses `[0, 12000]`; all modes are finally
clamped to `[curve.first.cal_BP, curve.last.cal_BP]`. -/
theorem selectRange_spec (curveData : List CurvePoint) (c14Age uncertainty : ℚ)
    (hne : curveData ≠ [])
    (hband : bandPoints curveData c14Age uncertainty ≠ []) :
    findCalendarRangeByC14BP curveData c14Age uncertainty =
      some (jsMin ((bandPoints curveData c14Age uncertainty).map (·.cal_BP)),
            jsMax ((bandPoints curveData c14Age uncertainty).map (·.cal_BP))) ∧
    selectRange curveData c14Age uncertainty "c14_bp" =
      some (max (max 0 (jsMin ((bandPoints curveData c14Age uncertainty).map (·.cal_BP)) - 500))
              (curveData.head hne).cal_BP,
            min (jsMax ((bandPoints curveData c14Age uncertainty).map (·.cal_BP)) + 500)
              (curveData.getLast hne).cal_BP) ∧
    selectRange curveData c14Age uncertainty "full_curve" =
      some ((curveData.head hne).cal_BP, (curveData.getLast hne).cal_BP) ∧
    selectRange curveData c14Age uncertainty "fixed_range" =
      some (max 0 (curveData.head hne).cal_BP, min 12000 (curveData.getLast hne).cal_BP) := by
  have hfr := findCalendarRangeByC14BP_spec curveData c14Age uncertainty hband
  have hh2 : curveData[0]?.getD defaultPoint = curveData.head hne := by
    rw [← List.getD_eq_getElem?_getD]
    exact getD_zero_head curveData hne
  have hl2 : curveData[curveData.length - 1]?.getD defaultPoint = curveData.getLast hne := by
    rw [← List.getD_eq_getElem?_getD]
    exact getD_last curveData hne
  refine ⟨hfr, ?_, ?_, ?_⟩
  · simp [selectRange, hfr, hh2, hl2]
  · simp [selectRange, hh2, hl2]
  · simp [selectRange, hh2, hl2]

/-- Witness for `selectRange_spec` on a concrete curve and measurement. -/
theorem selectRange_spec_witness :
    (curve3 ≠ [] ∧ bandPoints curve3 200 10 ≠ []) ∧
    (findCalendarRangeByC14BP curve3 200 10 =
      some (jsMin ((bandPoints curve3 200 10).map (·.cal_BP)),
            jsMax ((bandPoints curve3 200 10).map (·.cal_BP))) ∧
    selectRange curve3 200 10 "c14_bp" =
      some (max (max 0 (jsMin ((bandPoints curve3 200 10).map (·.cal_BP)) - 500))
              (curve3.head (by simp [curve3])).cal_BP,
            min (jsMax ((bandPoints curve3 200 10).map (·.cal_BP)) + 500)
              (curve3.getLast (by simp [curve3])).cal_BP) ∧
    selectRange curve3 200 10 "full_curve" =
      some ((curve3.head (by simp [curve3])).cal_BP,
            (curve3.getLast (by simp [curve3])).cal_BP) ∧
    selectRange curve3 200 10 "fixed_range" =
      some (max 0 (curve3.head (by simp [curve3])).cal_BP,
            min 12000 (curve3.getLast (by simp [curve3])).cal_BP)) :=
  ⟨⟨by simp [curve3], by norm_num [bandPoints, curve3, inBand]⟩,
   selectRange_spec curve3 200 10 (by simp [curve3])
     (by norm_num [bandPoints, curve3, inBand])⟩

/-- The Gaussian likelihood is strictly positive whenever the measurement
error is. -/
theorem calculateProbability_pos (a e c ce : ℝ) (he : 0 < e) :
    0 < calculateProbability a e c ce := by
  unfold calculateProbability
  have h1 : 0 < Real.sqrt (e ^ 2 + ce ^ 2) := by
    refine Real.sqrt_pos.mpr ?_
    have := sq_nonneg ce
    nlinarith
  have h2 : 0 < Real.sqrt (2 * Real.pi) := by
    refine Real.sqrt_pos.mpr ?_
    have := Real.pi_pos
    linarith
  exact div_pos (Real.exp_pos _) (mul_pos h1 h2)

/-- Dividing a non-empty list of positive reals by its own sum yields a list
summing to one. -/
theorem sum_div_total (l : List ℝ) (hne : l ≠ []) (hpos : ∀ x ∈ l, 0 < x) :
    (l.map (fun x => x / l.sum)).sum = 1 := by
  have hS : 0 < l.sum := by
    cases l with
    | nil => exact absurd rfl hne
    | cons a t =>
        have h1 : 0 < a := hpos a (by simp)
        have h2 : 0 ≤ t.sum :=
          List.sum_nonneg (fun x hx => le_of_lt (hpos x (List.mem_cons_of_mem _ hx)))
        simp only [List.sum_cons]
        linarith
  have hmap : (l.map (fun x => x / l.sum)).sum = l.sum / l.sum := by
    simpa [div_eq_mul_inv] using List.sum_map_mul_right l id (l.sum)⁻¹
  rw [hmap, div_self (ne_of_gt hS)]

/-- The descending-probability sort is empty only for the empty input. -/
theorem sortByProbDesc_eq_nil_iff {α : Type} [LinearOrder α] (l : List (PPoint α)) :
    sortByProbDesc l = [] ↔ l = [] := by
  constructor
  · intro h
    have hperm : List.Perm (sortByProbDesc l) l := List.perm_insertionSort _ l
    rw [h] at hperm
    exact hperm.symm.eq_nil
  · intro h
    rw [h]
    rfl

/-- The 1-year sampling loop produces no point exactly when the range is
inverted. -/
theorem createUniformDistribution_eq_nil_iff (curveData : List CurvePoint)
    (mn mx : ℚ) : createUniformDistribution curveData mn mx = [] ↔ ¬mn ≤ mx := by
  simp only [createUniformDistribution]
  by_cases hmm : mn ≤ mx
  · rw [if_pos hmm]
    constructor
    · intro hcon
      have hlen := congrArg List.length hcon
      simp at hlen
      have hone : (List.length ∘ fun (a : ℕ) => ([(a : ℚ)] : List ℚ)) = fun _ => 1 := rfl
      rw [hone] at hlen
      simp at hlen
    · intro hcon
      exact absurd hmm hcon
  · rw [if_neg hmm]
    simp [hmm]

/-- The pipeline core returns `none` exactly when the clamped evaluation
range is empty. -/
theorem calibrationCore_none_iff (curveData : List CurvePoint)
    (corr u : ℚ) (sm : String) :
    calibrationCore curveData corr u sm = none ↔
      emptyEvalRange curveData corr u sm = true := by
  simp only [calibrationCore, emptyEvalRange]
  rcases hsel : selectRange curveData corr u sm with _ | ⟨mn, mx⟩
  · simp [sortByProbDesc]
  · simp only [Option.map_eq_none', List.head?_eq_none_iff, sortByProbDesc_eq_nil_iff,
      List.map_eq_nil_iff, createUniformDistribution_eq_nil_iff, decide_eq_true_eq]
    constructor
    · intro h
      exact lt_of_not_le h
    · intro h
      exact not_le.mpr h

/-- Once the selected range is known, `calibrationCore` is the mode/HPD
extraction applied to `normalizedList`. -/
theorem calibrationCore_eq_of_selectRange (curveData : List CurvePoint)
    (corr u : ℚ) (sm : String) (mn mx : ℚ)
    (hsel : selectRange curveData corr u sm = some (mn, mx)) :
    calibrationCore curveData corr u sm =
      (sortByProbDesc (normalizedList curveData corr u mn mx)).head?.map
        (fun modePoint =>
          (modePoint,
           findHPD (normalizedList curveData corr u mn mx) ((682 : ℝ) / 1000),
           findHPD (normalizedList curveData corr u mn mx) ((954 : ℝ) / 1000),
           sortByCal (normalizedList curveData corr u mn mx))) := by
  simp only [calibrationCore, normalizedList, hsel]

/-- With a positive uncertainty and a non-inverted range, the normalized
probabilities are a non-empty list summing to exactly one. -/
theorem normalizedList_sum_one (curveData : List CurvePoint)
    (corr u mn mx : ℚ) (hu : 0 < u) (hmm : mn ≤ mx) :
    ((normalizedList curveData corr u mn mx).map (fun p => p.probability)).sum = 1 ∧
      normalizedList curveData corr u mn mx ≠ [] := by
  have hu' : (0 : ℝ) < (u : ℝ) := by exact_mod_cast hu
  have hUne : createUniformDistribution curveData mn mx ≠ [] := by
    intro hc
    exact absurd hmm ((createUniformDistribution_eq_nil_iff curveData mn mx).mp hc)
  simp only [normalizedList]
  set U := createUniformDistribution curveData mn mx with hU
  set P : List (PPoint ℝ) := U.map (fun point =>
    (⟨point.cal_BP,
      calculateProbability (corr : ℝ) (u : ℝ)
        (point.c14_BP : ℝ) (point.error : ℝ)⟩ : PPoint ℝ)) with hP
  set L : List ℝ := P.map (fun p => p.probability) with hL
  have hPne : P ≠ [] := by
    rw [hP]
    simp only [ne_eq, List.map_eq_nil_iff]
    exact hUne
  have hLne : L ≠ [] := by
    rw [hL]
    simp only [ne_eq, List.map_eq_nil_iff]
    exact hPne
  have hLpos : ∀ x ∈ L, 0 < x := by
    intro x hx
    rw [hL, hP] at hx
    simp only [List.mem_map] at hx
    obtain ⟨p, hp, hpx⟩ := hx
    obtain ⟨pt, _, hpt⟩ := hp
    rw [← hpx, ← hpt]
    exact calculateProbability_pos _ _ _ _ hu'
  have hmaps : (P.map (fun p : PPoint ℝ =>
      (⟨p.cal_BP, p.probability / L.sum⟩ : PPoint ℝ))).map (fun p => p.probability) =
      L.map (fun x => x / L.sum) := by
    rw [hL]
    simp only [List.map_map]
    rfl
  constructor
  · rw [hmaps]
    exact sum_div_total L hLne hLpos
  · simp only [ne_eq, List.map_eq_nil_iff]
    exact hPne

/-- With a positive uncertainty and a non-inverted selected range, the
pipeline core succeeds and its cal-sorted distribution sums to exactly one. -/
theorem calibrationCore_sum_one (curveData : List CurvePoint)
    (corr u : ℚ) (sm : String) (mn mx : ℚ) (hu : 0 < u)
    (hsel : selectRange curveData corr u sm = some (mn, mx)) (hmm : mn ≤ mx) :
    ∃ out, calibrationCore curveData corr u sm = some out ∧
      (out.2.2.2.map (fun p => p.probability)).sum = 1 := by
  obtain ⟨hsum, hne⟩ := normalizedList_sum_one curveData corr u mn mx hu hmm
  set N := normalizedList curveData corr u mn mx with hN
  have hSne : sortByProbDesc N ≠ [] := fun hc =>
    hne ((sortByProbDesc_eq_nil_iff N).mp hc)
  rcases hhd : (sortByProbDesc N).head? with _ | m
  · exact absurd (List.head?_eq_none_iff.mp hhd) hSne
  · refine ⟨(m, findHPD N ((682 : ℝ) / 1000), findHPD N ((954 : ℝ) / 1000),
      sortByCal N), ?_, ?_⟩
    · rw [calibrationCore_eq_of_selectRange curveData corr u sm mn mx hsel, ← hN, hhd]
      rfl
    · have hperm : List.Perm (sortByCal N) N := List.perm_insertionSort _ N
      calc ((sortByCal N).map (fun p => p.probability)).sum
          = (N.map (fun p => p.probability)).sum := (hperm.map _).sum_eq
        _ = 1 := hsum

/-- C3: for every `calibrateDate` call whose inputs pass validation (age in
`[0, 100000]`, positive uncertainty), whose curve data loads and is
non-empty, and whose clamped evaluation range is non-empty (so the call
returns at all), the call succeeds and the probabilities of the returned
distribution sum to 1 within 1e-6 (in the exact-real model the sum is
exactly 1). -/
theorem calibrateDate_normalization (a u R : ℚ) (ct sm : String)
    (gd : Option (String → List CurvePoint))
    (ld : Except String (String → List CurvePoint))
    (cs : String → List CurvePoint)
    (h1 : ¬(a < 0 ∨ 100000 < a)) (h2 : 0 < u)
    (hld : loadCurves gd ld = Except.ok cs)
    (hcne : cs (resolveCurveType ct) ≠ [])
    (hrange : emptyEvalRange (cs (resolveCurveType ct)) (a - R) u sm = false) :
    ∃ res, calibrateDate a u R ct sm gd ld = Except.ok res ∧
      |((res.distribution.map (fun p => p.probability)).sum) - 1| ≤ 1 / 1000000 := by
  have h2' : ¬u ≤ 0 := not_le.mpr h2
  rcases hsel : selectRange (cs (resolveCurveType ct)) (a - R) u sm with _ | ⟨mn, mx⟩
  · rw [emptyEvalRange, hsel] at hrange
    cases hrange
  · have hmm : mn ≤ mx := by
      by_contra hcon
      rw [emptyEvalRange, hsel] at hrange
      simp only [decide_eq_false_iff_not, not_lt] at hrange
      exact hcon (le_antisymm hrange (le_of_not_le hcon) ▸ le_refl mn)
    obtain ⟨out, hcore, hsum⟩ :=
      calibrationCore_sum_one (cs (resolveCurveType ct)) (a - R) u sm mn mx h2 hsel hmm
    have hemp : (cs (resolveCurveType ct)).isEmpty = false := by
      cases hval : cs (resolveCurveType ct) with
      | nil => exact absurd hval hcne
      | cons x t => rfl
    refine ⟨{ input := ⟨a, u, R, resolveCurveType ct, sm⟩,
              calibrated_years_BP := out.1.cal_BP,
              calendar_year := 1950 - out.1.cal_BP,
              hpd68_ranges := out.2.1,
              hpd95_ranges := out.2.2.1,
              range_1sigma := ⟨jsMin (out.2.1.map (·.min)), jsMax (out.2.1.map (·.max))⟩,
              range_2sigma :=
                ⟨jsMin (out.2.2.1.map (·.min)), jsMax (out.2.2.1.map (·.max))⟩,
              distribution := out.2.2.2 }, ?_, ?_⟩
    · simp only [calibrateDate, if_neg h1, if_neg h2', hld, hemp, Bool.false_eq_true,
        if_false, hcore]
    · simp only [hsum]
      norm_num

/-- Witness: the three-point IntCal20 curve set at age 1000 ± 50 under
`fixed_range` yields a successful call whose distribution sums to one. -/
theorem calibrateDate_normalization_witness :
    ∃ res, calibrateDate 1000 50 0 "IntCal20" "fixed_range" (some curveSet3)
        (Except.ok curveSet3) = Except.ok res ∧
      |((res.distribution.map (fun p => p.probability)).sum) - 1| ≤ 1 / 1000000 :=
  calibrateDate_normalization 1000 50 0 "IntCal20" "fixed_range" (some curveSet3)
    (Except.ok curveSet3) curveSet3 (by norm_num) (by norm_num) rfl
    (by
      intro hc
      simp [curveSet3, resolveCurveType, knownCurveTypes, curve3] at hc)
    (by
      have hct : resolveCurveType "IntCal20" = "IntCal20" := by
        simp [resolveCurveType, knownCurveTypes]
      rw [hct]
      have hcs : curveSet3 "IntCal20" = curve3 := by simp [curveSet3]
      rw [hcs]
      have hsel : selectRange curve3 (1000 - 0) 50 "fixed_range" = some (0, 20) := by
        simp [selectRange, curve3, defaultPoint]
        norm_num
      rw [emptyEvalRange, hsel]
      norm_num)

/-- C4: whenever both calls pass input validation, calibrating
`(c14Age, u, R)` and calibrating `(c14Age - R, u, 0)` with the same curve
and search mode agree on everything except the echoed input record (mode,
HPD interval sets, sigma ranges, calendar year, and distribution are
identical). -/
theorem calibrateDate_reservoir (a u R : ℚ) (ct sm : String)
    (gd : Option (String → List CurvePoint))
    (ld : Except String (String → List CurvePoint))
    (h1 : ¬(a < 0 ∨ 100000 < a)) (h1' : ¬(a - R < 0 ∨ 100000 < a - R)) :
    (calibrateDate a u R ct sm gd ld).map resultCore =
      (calibrateDate (a - R) u 0 ct sm gd ld).map resultCore := by
  simp only [calibrateDate, sub_zero]
  rw [if_neg h1, if_neg h1']
  by_cases h2 : u ≤ 0
  · rw [if_pos h2, if_pos h2]
  · rw [if_neg h2, if_neg h2]
    rcases hld : loadCurves gd ld with e | cs
    · rfl
    · dsimp only
      by_cases hemp : (cs (resolveCurveType ct)).isEmpty
      · rw [if_pos hemp, if_pos hemp]
      · rw [if_neg hemp, if_neg hemp]
        rcases hcore : calibrationCore (cs (resolveCurveType ct)) (a - R) u sm with _ | out
        · rfl
        · simp only [Except.map, resultCore]

/-- Witness for `calibrateDate_reservoir`: age 1000 with reservoir
correction 100 against the same call at age 900 with correction 0. -/
theorem calibrateDate_reservoir_witness :
    (calibrateDate 1000 50 100 "IntCal20" "fixed_range" (some curveSet3)
        (Except.ok curveSet3)).map resultCore =
      (calibrateDate (1000 - 100) 50 0 "IntCal20" "fixed_range" (some curveSet3)
        (Except.ok curveSet3)).map resultCore :=
  calibrateDate_reservoir 1000 50 100 "IntCal20" "fixed_range" (some curveSet3)
    (Except.ok curveSet3) (by norm_num) (by norm_num)

/-- `selectRange` treats every mode other than the two named ones exactly
like `fixed_range`. -/
theorem selectRange_default (curveData : List CurvePoint) (corr u : ℚ)
    (sm : String) (hm1 : sm ≠ "c14_bp") (hm2 : sm ≠ "full_curve") :
    selectRange curveData corr u sm =
      selectRange curveData corr u "fixed_range" := by
  simp only [selectRange, if_neg hm1, if_neg hm2,
    if_neg (by decide : ¬("fixed_range" = "c14_bp")),
    if_neg (by decide : ¬("fixed_range" = "full_curve"))]

/-- `calibrationCore` treats every mode other than the two named ones exactly
like `fixed_range`. -/
theorem calibrationCore_default (curveData : List CurvePoint) (corr u : ℚ)
    (sm : String) (hm1 : sm ≠ "c14_bp") (hm2 : sm ≠ "full_curve") :
    calibrationCore curveData corr u sm =
      calibrationCore curveData corr u "fixed_range" := by
  simp only [calibrationCore, selectRange_default curveData corr u sm hm1 hm2]

/-- C10: for every `search_mode` other than `"c14_bp"` and `"full_curve"` —
any unrecognized string included — `calibrateDate` behaves exactly as with
`"fixed_range"` (the `[0, 12000]` window before clamping), differing only in
the echoed `search_mode` field; its warning output is identical to the
`"fixed_range"` call's, and every warning either call can emit is the
unknown-curve-type fallback or `findHPD`'s invalid-distribution warning —
never one about the unrecognized mode. -/
theorem calibrateDate_default_mode (a u R : ℚ) (ct sm : String)
    (gd : Option (String → List CurvePoint))
    (ld : Except String (String → List CurvePoint))
    (hm1 : sm ≠ "c14_bp") (hm2 : sm ≠ "full_curve") :
    calibrateDate a u R ct sm gd ld =
      (calibrateDate a u R ct "fixed_range" gd ld).map
        (fun res => { res with input := { res.input with search_mode := sm } }) ∧
    calibrateDateWarnings a u R ct sm gd ld =
      calibrateDateWarnings a u R ct "fixed_range" gd ld ∧
    ∀ w ∈ calibrateDateWarnings a u R ct sm gd ld,
      w = "Invalid curve type. Using default IntCal20." ∨
      w = "Invalid probability distribution provided to findHPD" := by
  refine ⟨?_, ?_, ?_⟩
  · simp only [calibrateDate]
    by_cases h1 : a < 0 ∨ 100000 < a
    · rw [if_pos h1, if_pos h1]
      rfl
    · rw [if_neg h1, if_neg h1]
      by_cases h2 : u ≤ 0
      · rw [if_pos h2, if_pos h2]
        rfl
      · rw [if_neg h2, if_neg h2]
        rcases hld : loadCurves gd ld with e | cs
        · rfl
        · dsimp only
          by_cases hemp : (cs (resolveCurveType ct)).isEmpty
          · rw [if_pos hemp, if_pos hemp]
            rfl
          · rw [if_neg hemp, if_neg hemp,
              calibrationCore_default (cs (resolveCurveType ct)) (a - R) u sm hm1 hm2]
            rcases hcore : calibrationCore (cs (resolveCurveType ct)) (a - R) u
                "fixed_range" with _ | out
            · rfl
            · rfl
  · simp only [calibrateDateWarnings]
    by_cases h1 : a < 0 ∨ 100000 < a
    · rw [if_pos h1, if_pos h1]
    · rw [if_neg h1, if_neg h1]
      by_cases h2 : u ≤ 0
      · rw [if_pos h2, if_pos h2]
      · rw [if_neg h2, if_neg h2]
        rcases hld : loadCurves gd ld with e | cs
        · rfl
        · dsimp only
          by_cases hemp : (cs (resolveCurveType ct)).isEmpty
          · rw [if_pos hemp, if_pos hemp]
          · rw [if_neg hemp, if_neg hemp,
              selectRange_default (cs (resolveCurveType ct)) (a - R) u sm hm1 hm2]
  · intro w hw
    simp only [calibrateDateWarnings] at hw
    have hcw : ∀ w', w' ∈ (if ct ∈ knownCurveTypes then ([] : List String)
        else ["Invalid curve type. Using default IntCal20."]) →
        w' = "Invalid curve type. Using default IntCal20." := by
      intro w' hw'
      by_cases hct : ct ∈ knownCurveTypes
      · rw [if_pos hct] at hw'
        cases hw'
      · rw [if_neg hct] at hw'
        simpa using hw'
    have hhpd : ∀ (N : List (PPoint ℝ)) (c : ℝ), ¬(c ≤ 0 ∨ 1 < c) →
        ∀ w' ∈ findHPDWarnings N c,
          w' = "Invalid probability distribution provided to findHPD" := by
      intro N c hc w' hw'
      rw [findHPDWarnings] at hw'
      by_cases hN : N.isEmpty
      · rw [if_pos hN] at hw'
        simpa using hw'
      · rw [if_neg hN, if_neg hc] at hw'
        cases hw'
    by_cases h1 : a < 0 ∨ 100000 < a
    · rw [if_pos h1] at hw
      cases hw
    rw [if_neg h1] at hw
    by_cases h2 : u ≤ 0
    · rw [if_pos h2] at hw
      cases hw
    rw [if_neg h2] at hw
    rcases hld : loadCurves gd ld with e | cs
    · rw [hld] at hw
      exact Or.inl (hcw w hw)
    · rw [hld] at hw
      dsimp only at hw
      by_cases hemp : (cs (resolveCurveType ct)).isEmpty
      · rw [if_pos hemp] at hw
        exact Or.inl (hcw w hw)
      · rw [if_neg hemp] at hw
        simp only [List.mem_append] at hw
        rcases hw with (hw | hw) | hw
        · exact Or.inl (hcw w hw)
        · exact Or.inr (hhpd _ _ (by norm_num) w hw)
        · exact Or.inr (hhpd _ _ (by norm_num) w hw)

/-- Witness for `calibrateDate_default_mode` at the unrecognized mode
`"banana"`. -/
theorem calibrateDate_default_mode_witness :
    calibrateDate 1000 50 0 "IntCal20" "banana" (some curveSet3)
        (Except.ok curveSet3) =
      (calibrateDate 1000 50 0 "IntCal20" "fixed_range" (some curveSet3)
        (Except.ok curveSet3)).map
          (fun res => { res with input := { res.input with search_mode := "banana" } }) ∧
    calibrateDateWarnings 1000 50 0 "IntCal20" "banana" (some curveSet3)
        (Except.ok curveSet3) =
      calibrateDateWarnings 1000 50 0 "IntCal20" "fixed_range" (some curveSet3)
        (Except.ok curveSet3) ∧
    ∀ w ∈ calibrateDateWarnings 1000 50 0 "IntCal20" "banana" (some curveSet3)
        (Except.ok curveSet3),
      w = "Invalid curve type. Using default IntCal20." ∨
      w = "Invalid probability distribution provided to findHPD" :=
  calibrateDate_default_mode 1000 50 0 "IntCal20" "banana" (some curveSet3)
    (Except.ok curveSet3) (by decide) (by decide)

/-- Counterexample to the C5 error list being exhaustive: all listed
conditions hold good (age 1000 in range, uncertainty 50 positive, IntCal20
data present and non-empty, loading succeeded), yet the call raises — the
curve's only point lies at calendar 20000, so the `[0, 12000]` window clamps
to the empty range `[20000, 12000]`, the distribution is empty, and result
assembly throws a `TypeError`. -/
theorem calibrateDate_error_cex :
    calibrateDate 1000 50 0 "IntCal20" "fixed_range" (some curveSetX)
        (Except.ok curveSetX) = Except.error "TypeError" ∧
    ¬((1000 : ℚ) < 0 ∨ (100000 : ℚ) < 1000) ∧ (0 : ℚ) < 50 ∧
    loadCurves (some curveSetX) (Except.ok curveSetX) = Except.ok curveSetX ∧
    curveSetX (resolveCurveType "IntCal20") ≠ [] := by
  have hct : resolveCurveType "IntCal20" = "IntCal20" := by
    simp [resolveCurveType, knownCurveTypes]
  have hsel : selectRange (curveSetX "IntCal20") (1000 - 0) 50 "fixed_range" =
      some (20000, 12000) := by
    simp [selectRange, curveSetX, defaultPoint]
    norm_num
  have hcore : calibrationCore (curveSetX "IntCal20") (1000 - 0) 50 "fixed_range" =
      none := by
    rw [calibrationCore_none_iff, emptyEvalRange, hsel]
    norm_num
  refine ⟨?_, by norm_num, by norm_num, rfl, ?_⟩
  · simp only [calibrateDate, hct, loadCurves]
    rw [if_neg (by norm_num : ¬((1000 : ℚ) < 0 ∨ (100000 : ℚ) < 1000)),
      if_neg (by norm_num : ¬((50 : ℚ) ≤ 0))]
    rw [if_neg (by simp [curveSetX] : ¬(curveSetX "IntCal20").isEmpty = true), hcore]
  · rw [hct]
    intro hc
    simp [curveSetX] at hc

/-- C5 (amended): within the typed model (numeric inputs), `calibrateDate`
raises an error if and only if the age is outside `[0, 100000]`, the
uncertainty is non-positive, loading the curve data fails, the requested
(post-fallback) curve's data is empty, or the clamped evaluation range is
empty (the `TypeError` of an empty distribution); an unknown curve type does
not raise but falls back to IntCal20. -/
theorem calibrateDate_error_iff (a u R : ℚ) (ct sm : String)
    (gd : Option (String → List CurvePoint))
    (ld : Except String (String → List CurvePoint)) :
    (∃ e, calibrateDate a u R ct sm gd ld = Except.error e) ↔
      (a < 0 ∨ 100000 < a ∨ u ≤ 0 ∨
       (∃ e, loadCurves gd ld = Except.error e) ∨
       (∃ cs, loadCurves gd ld = Except.ok cs ∧
          (cs (resolveCurveType ct) = [] ∨
           emptyEvalRange (cs (resolveCurveType ct)) (a - R) u sm = true))) := by
  simp only [calibrateDate]
  by_cases h1 : a < 0 ∨ 100000 < a
  · rw [if_pos h1]
    constructor
    · intro _
      rcases h1 with h | h
      · exact Or.inl h
      · exact Or.inr (Or.inl h)
    · intro _
      exact ⟨_, rfl⟩
  · rw [if_neg h1]
    by_cases h2 : u ≤ 0
    · rw [if_pos h2]
      constructor
      · intro _
        exact Or.inr (Or.inr (Or.inl h2))
      · intro _
        exact ⟨_, rfl⟩
    · rw [if_neg h2]
      rcases hld : loadCurves gd ld with e | cs
      · constructor
        · intro _
          exact Or.inr (Or.inr (Or.inr (Or.inl ⟨e, rfl⟩)))
        · intro _
          exact ⟨_, rfl⟩
      · dsimp only
        by_cases hemp : (cs (resolveCurveType ct)).isEmpty
        · rw [if_pos hemp]
          constructor
          · intro _
            exact Or.inr (Or.inr (Or.inr (Or.inr
              ⟨cs, rfl, Or.inl (List.isEmpty_iff.mp hemp)⟩)))
          · intro _
            exact ⟨_, rfl⟩
        · rw [if_neg hemp]
          rcases hcore : calibrationCore (cs (resolveCurveType ct)) (a - R) u sm
              with _ | out
          · constructor
            · intro _
              exact Or.inr (Or.inr (Or.inr (Or.inr
                ⟨cs, rfl, Or.inr ((calibrationCore_none_iff _ _ _ _).mp hcore)⟩)))
            · intro _
              exact ⟨_, rfl⟩
          · constructor
            · rintro ⟨e, he⟩
              cases he
            · rintro (h | h | h | ⟨e, he⟩ | ⟨cs2, hcs2, hbad⟩)
              · exact absurd (Or.inl h) h1
              · exact absurd (Or.inr h) h1
              · exact absurd h h2
              · exact Except.noConfusion he
              · injection hcs2 with hcs3
                subst hcs3
                rcases hbad with h | h
                · exact absurd h (by simpa [List.isEmpty_iff] using hemp)
                · have hn := (calibrationCore_none_iff _ _ _ _).mpr h
                  rw [hcore] at hn
                  exact Option.noConfusion hn

end C14
